import Mathlib

/-!
Shallow embedding of the distinct heavy-hitter sketch family
(HyperLogLog, Count-HLL / PointwiseSketch, SpreadSketch, SpaceSavingSets,
SamplingSpaceSavingSets) from the Rust sources, together with proofs about
the embedded operations.

Modelling conventions:
* 64-bit machine integers are modelled as `ℕ` reduced modulo `2 ^ 64` where
  the code relies on wrap-around; `usize` is 64 bits.
* `f64` arithmetic on the HLL caches (`z_inv`, `alpha`) is modelled exactly
  over `ℚ`: every quantity involved is a small dyadic rational.  The one
  place where double-precision rounding is semantically significant — the
  cheap cardinality proxy of SamplingSpaceSavingSets, which divides
  `u64::MAX as f64` by `hash as f64` — is modelled with an explicit
  round-to-nearest-even function at 53 bits of precision (`rnd53`).
* Hash builders (`ahash::RandomState`) are uninterpreted oracles stored in
  the configuration; their 64-bit outputs are taken modulo `2 ^ 64`.
* Rust `HashMap` is modelled as an association list; reachable sketches
  keep their keys `Nodup`, and iteration-order-sensitive operations
  (`min_by_key`, stable sorts) are modelled with first-match /
  stable-insertion semantics.
* A `merge` that mutates `self` in place is modelled as a function
  returning `Option MergeError × State`: on `ConfigMismatch` the returned
  state is the unchanged receiver, mirroring the early return before any
  mutation.
* `todo!()` bodies (the three `clear` stubs) are modelled as functions into
  `Option`, always returning `none` (the panic).
-/

/-- Fuel-bounded count of trailing zero bits; `tzb 64 0 = 64`, matching
`u64::trailing_zeros` on `0`. -/
def tzb : ℕ → ℕ → ℕ
  | 0, _ => 0
  | fuel + 1, n => if n % 2 = 1 then 0 else tzb fuel (n / 2) + 1

/-- The `u64::trailing_zeros` of a machine word. -/
def u64_trailing_zeros (n : ℕ) : ℕ := tzb 64 (n % 2 ^ 64)

/-- Fuel-bounded base-2 logarithm (floor), on naturals. -/
def log2fuel : ℕ → ℕ → ℕ
  | 0, _ => 0
  | fuel + 1, n => if n ≤ 1 then 0 else log2fuel fuel (n / 2) + 1

/-- Floor of the base-2 logarithm of a rational `q ≥ 1`. -/
def rat_log2 (q : ℚ) : ℕ := log2fuel 128 ⌊q⌋.toNat

/-- Round a rational `q ≥ 1` to the nearest `f64` (53 significant bits,
ties to even).  Inputs below `1` are returned unchanged; every call site
in this development only applies it to values in `[1, 2^64]`, far from
overflow and subnormal ranges. -/
def rnd53 (q : ℚ) : ℚ :=
  if q < 1 then q
  else
    let e := rat_log2 q
    let x : ℚ := q * 2 ^ 52 / 2 ^ e
    let n : ℤ := ⌊x⌋
    let m : ℤ :=
      if x - n < 1 / 2 then n
      else if 1 / 2 < x - n then n + 1
      else if n % 2 = 0 then n else n + 1
    (m : ℚ) * 2 ^ e / 2 ^ 52

/-- Rust `as u64` cast from `f64`: saturating, truncating toward zero. -/
def f64_to_u64 (q : ℚ) : ℕ := if q < 0 then 0 else min ⌊q⌋.toNat (2 ^ 64 - 1)

/-- The `f64` value of `u64::MAX` (rounds up to `2 ^ 64`). -/
def u64_max_as_f64 : ℚ := rnd53 ((2 ^ 64 - 1 : ℕ) : ℚ)

/-- Double-precision division for positive normal operands and results. -/
def f64_div (a b : ℚ) : ℚ := rnd53 (a / b)

/-- Reinterpret the low 32 bits of a natural as a two's-complement `i32`
(the effect of Rust `as i32` on a `u64`). -/
def toInt32 (n : ℕ) : ℤ :=
  let L : ℕ := n % 2 ^ 32
  if L < 2 ^ 31 then (L : ℤ) else (L : ℤ) - 2 ^ 32

/-- Wrapping `i32` negation (release-mode semantics). -/
def i32_neg (v : ℤ) : ℤ := if v = -(2 ^ 31) then -(2 ^ 31) else -v

/-- The value `2 ^ (-r)` as a rational, the exact value of the `f64`
`2.0f64.powi(-(r as i32))` for the register range `r ≤ 65`. -/
def invPow2 (r : ℕ) : ℚ := (2 : ℚ) ^ (-(r : ℤ))

/-- Helper for `itertools_unique`: emit elements not yet seen. -/
def unique_aux {α : Type} [DecidableEq α] : List α → List α → List α
  | _, [] => []
  | seen, a :: t => if a ∈ seen then unique_aux seen t else a :: unique_aux (a :: seen) t

/-- The semantics of `itertools::unique`: keep the first occurrence of
each element, in order. -/
def itertools_unique {α : Type} [DecidableEq α] (l : List α) : List α := unique_aux [] l

/-- Association-list lookup (first entry with the key). -/
def alist_lookup {κ β : Type} [DecidableEq κ] (k : κ) : List (κ × β) → Option β
  | [] => none
  | (k2, v) :: t => if k2 = k then some v else alist_lookup k t

/-- Association-list in-place update of the first entry with the key. -/
def alist_update {κ β : Type} [DecidableEq κ] (k : κ) (f : β → β) : List (κ × β) → List (κ × β)
  | [] => []
  | (k2, v) :: t => if k2 = k then (k2, f v) :: t else (k2, v) :: alist_update k f t

/-- Association-list removal of the first entry with the key
(`HashMap::remove` on maps without duplicate keys). -/
def alist_remove {κ β : Type} [DecidableEq κ] (k : κ) : List (κ × β) → List (κ × β)
  | [] => []
  | (k2, v) :: t => if k2 = k then t else (k2, v) :: alist_remove k t

/-- Rust `Iterator::min_by_key` over map entries: the first entry whose
key-function value is minimal. -/
def min_by_key {κ β : Type} (f : β → ℕ) : List (κ × β) → Option (κ × β)
  | [] => none
  | (k, v) :: t =>
    match min_by_key f t with
    | none => some (k, v)
    | some (k2, v2) => if f v ≤ f v2 then some (k, v) else some (k2, v2)

/-- Shared merge error type: every sketch crate defines the single variant
`ConfigMismatch`. -/
inductive MergeError : Type
  | configMismatch
deriving DecidableEq

/-- Modelled from the spec: `linear_counting.rs` is declared by
`hll/src/lib.rs` (`mod linear_counting`) but the file is not under `src/`.
The spec defines `linear_counting(m, V) = m · ln(m / V)` (rounded). -/
noncomputable def linear_counting (m V : ℕ) : ℕ :=
  (round ((m : ℝ) * Real.log ((m : ℝ) / (V : ℝ)))).toNat

/-- Configuration of `HyperLogLog` (`hll/src/config.rs`): register count,
bias constant `alpha`, the 8 seed words, and the two hash builders derived
from them (modelled as oracles). -/
structure HllConfig (I : Type) : Type where
  num_registers : ℕ
  alpha : ℚ
  seeds : List ℕ
  hash_index : I → ℕ
  hash_level : I → ℕ

/-- The `PartialEq` instance of `hll::Config`: compares `num_registers`,
`alpha` and `seeds` (not the derived hash builders). -/
def hll_config_eq {I : Type} (a b : HllConfig I) : Prop :=
  a.num_registers = b.num_registers ∧ a.alpha = b.alpha ∧ a.seeds = b.seeds

instance {I : Type} (a b : HllConfig I) : Decidable (hll_config_eq a b) := by
  unfold hll_config_eq; infer_instance

/-- State of `HyperLogLog` (`hll/src/lib.rs`). -/
structure HllState (I : Type) : Type where
  config : HllConfig I
  registers : List ℕ
  num_zero_registers : ℕ
  z_inv : ℚ

/-- `HyperLogLog::new`. -/
def hll_new {I : Type} (c : HllConfig I) : HllState I :=
  { config := c
    registers := List.replicate c.num_registers 0
    num_zero_registers := c.num_registers
    z_inv := (c.num_registers : ℚ) }

/-- `HyperLogLog::insert_hash` (`hll/src/lib.rs:107-122`): update the
register selected by `hash_builders[0]` and incrementally maintain both
caches. -/
def hll_insert_hash {I : Type} (s : HllState I) (x : I) (z : ℕ) : HllState I :=
  let r := (s.config.hash_index x % 2 ^ 64) &&& (s.config.num_registers - 1)
  let old := s.registers.getD r 0
  if old < z then
    { s with
      registers := s.registers.set r z
      num_zero_registers := if old = 0 then s.num_zero_registers - 1 else s.num_zero_registers
      z_inv := s.z_inv - invPow2 old + invPow2 z }
  else s

/-- `HyperLogLog::insert`: the level is `trailing_zeros(hash₁ item) + 1`. -/
def hll_insert {I : Type} (s : HllState I) (x : I) : HllState I :=
  hll_insert_hash s x (u64_trailing_zeros (s.config.hash_level x) + 1)

/-- `HyperLogLog::merge` (`hll/src/lib.rs:48-64`): reject on config
mismatch before any mutation; otherwise pointwise-max the registers and
recompute both caches from scratch. -/
def hll_merge {I : Type} (s o : HllState I) : Option MergeError × HllState I :=
  if hll_config_eq s.config o.config then
    let regs := s.registers.zipWith max o.registers ++ s.registers.drop o.registers.length
    (none,
      { s with
        registers := regs
        z_inv := (regs.map invPow2).sum
        num_zero_registers := regs.count 0 })
  else (some .configMismatch, s)

/-- `HyperLogLog::clear` (`hll/src/lib.rs:67-71`). -/
def hll_clear {I : Type} (s : HllState I) : HllState I :=
  { s with
    registers := List.replicate s.registers.length 0
    z_inv := (s.config.num_registers : ℚ)
    num_zero_registers := s.config.num_registers }

/-- `HyperLogLog::cardinality` (`hll/src/lib.rs:74-89`): raw estimate
`α·m²/z_inv` cast to `u64`, with the linear-counting small-range
correction when the estimate is at most `5·(m >> 1)` and some register is
zero. -/
noncomputable def hll_cardinality {I : Type} (s : HllState I) : ℕ :=
  let m := s.config.num_registers
  let estimate := f64_to_u64 (((m * m : ℕ) : ℚ) * s.config.alpha / s.z_inv)
  if estimate ≤ 5 * (m >>> 1) then
    if 0 < s.num_zero_registers then linear_counting m s.num_zero_registers else estimate
  else estimate

/-- States of `HyperLogLog` reachable from `new(config)` through `insert`,
`merge` (with another reachable sketch) and `clear`.  A zero-register
configuration is excluded: `insert` on it panics (out-of-bounds register
access), and `hll::Config::new` cannot produce one without `alpha`
evaluating on a zero denominator. -/
inductive hll_reachable {I : Type} : HllState I → Prop
  | new : ∀ c : HllConfig I, 0 < c.num_registers → hll_reachable (hll_new c)
  | insert : ∀ s x, hll_reachable s → hll_reachable (hll_insert s x)
  | merge : ∀ s o, hll_reachable s → hll_reachable o → hll_reachable (hll_merge s o).2
  | clear : ∀ s, hll_reachable s → hll_reachable (hll_clear s)

/-- Cache consistency of an HLL state: the register vector has the
configured length and both caches agree with it. -/
def hll_wf {I : Type} (s : HllState I) : Prop :=
  s.registers.length = s.config.num_registers ∧
    s.num_zero_registers = s.registers.count 0 ∧
    s.z_inv = (s.registers.map invPow2).sum

/-- Induction invariant for reachable HLL states: a positive register
count together with cache consistency. -/
def hll_inv {I : Type} (s : HllState I) : Prop :=
  0 < s.config.num_registers ∧ hll_wf s

/-- The cardinality-estimation mode of Count-HLL (`count_hll/src/config.rs`). -/
inductive CardinalityEstimationMethod : Type
  | original
  | maximumLikelihood
deriving DecidableEq

/-- Configuration of the Count-HLL `PointwiseSketch`
(`count_hll/src/config.rs`): depth, its log, width, 12 seed words, three
hash builders (oracles) and the estimation method.  The cached geometric
distribution is not part of `PartialEq` and is not needed by the claims. -/
structure PwConfig (L I : Type) : Type where
  depth : ℕ
  depth_log2 : ℕ
  width : ℕ
  seeds : List ℕ
  hash_ri : I → L → ℕ
  hash_z : I → L → ℕ
  hash_b : ℕ → L → ℕ
  method : CardinalityEstimationMethod

/-- The `PartialEq` instance of `count_hll::Config`: compares depth,
depth_log2, width, seeds and the estimation method. -/
def pw_config_eq {L I : Type} (a b : PwConfig L I) : Prop :=
  a.depth = b.depth ∧ a.depth_log2 = b.depth_log2 ∧ a.width = b.width ∧
    a.seeds = b.seeds ∧ a.method = b.method

instance {L I : Type} (a b : PwConfig L I) : Decidable (pw_config_eq a b) := by
  unfold pw_config_eq; infer_instance

/-- State of `PointwiseSketch` (`count_hll/src/lib.rs`). -/
structure PwState (L I : Type) : Type where
  config : PwConfig L I
  registers : List ℕ

/-- `PointwiseSketch::get_index`: `r + (b << depth_log2)` with
`r = hash₀(item,label) & (depth−1)` and `b = hash₂(r,label) % width`. -/
def pw_get_index {L I : Type} (c : PwConfig L I) (l : L) (x : I) : ℕ :=
  let r := (c.hash_ri x l % 2 ^ 64) &&& (c.depth - 1)
  let b := (c.hash_b r l % 2 ^ 64) % c.width
  r + (b <<< c.depth_log2)

/-- `PointwiseSketch::get_z`: `trailing_zeros(hash₁(item,label)) + 1`. -/
def pw_get_z {L I : Type} (c : PwConfig L I) (l : L) (x : I) : ℕ :=
  u64_trailing_zeros (c.hash_z x l) + 1

/-- `PointwiseSketch::insert`: write the max of the level and the register. -/
def pw_insert {L I : Type} (s : PwState L I) (l : L) (x : I) : PwState L I :=
  let z := pw_get_z s.config l x
  let i := pw_get_index s.config l x
  { s with registers := s.registers.set i (max z (s.registers.getD i 0)) }

/-- `PointwiseSketch::merge` (`count_hll/src/lib.rs:87-96`). -/
def pw_merge {L I : Type} (s o : PwState L I) : Option MergeError × PwState L I :=
  if pw_config_eq s.config o.config then
    (none,
      { s with
        registers := s.registers.zipWith max o.registers ++ s.registers.drop o.registers.length })
  else (some .configMismatch, s)

/-- State of `LabelArrayCountHLL` (`count_hll/src/invertible.rs`): the
pointwise sketch plus one `(owner?, level)` cell per register. -/
structure LaState (L I : Type) : Type where
  sketch : PwState L I
  labels : List (Option L × ℕ)

/-- `LabelArrayCountHLL::insert` (`count_hll/src/invertible.rs:107-115`):
insert into the base sketch, then replace the cell at the computed index
only when the level is strictly greater than the stored one. -/
def la_insert {L I : Type} (st : LaState L I) (l : L) (x : I) : LaState L I :=
  let sk := pw_insert st.sketch l x
  let index := pw_get_index sk.config l x
  let z := pw_get_z sk.config l x
  if (st.labels.getD index (none, 0)).2 < z then
    { sketch := sk, labels := st.labels.set index (some l, z) }
  else { sketch := sk, labels := st.labels }

/-- A SpreadSketch bucket (`spread/src/lib.rs:24-29`). -/
structure Bucket (L I : Type) : Type where
  label : Option L
  sketch : HllState I
  level : ℕ

instance {L I : Type} : Inhabited (Bucket L I) :=
  ⟨⟨none, ⟨⟨0, 0, [], fun _ => 0, fun _ => 0⟩, [], 0, 0⟩, 0⟩⟩

/-- `Bucket::count`. -/
noncomputable def bucket_count {L I : Type} (b : Bucket L I) : ℕ := hll_cardinality b.sketch

/-- `Bucket::merge` (`spread/src/lib.rs:62-68`): adopt the other's owner
and level when strictly greater, then merge the sketches (the `unwrap` at
the call site cannot fail when the two sketches share a configuration; the
model keeps the merged state unconditionally). -/
def bucket_merge {L I : Type} (s o : Bucket L I) : Bucket L I :=
  { label := if s.level < o.level then o.label else s.label
    level := if s.level < o.level then o.level else s.level
    sketch := (hll_merge s.sketch o.sketch).2 }

/-- Configuration of `SpreadSketch` (`spread/src/config.rs`). -/
structure SpreadConfig (L I : Type) : Type where
  num_rows : ℕ
  num_cols : ℕ
  seeds : List ℕ
  hash_global : I → L → ℕ
  hash_row : ℕ → L → ℕ
  cardinality_sketch_config : HllConfig I

/-- The `PartialEq` instance of `spread::Config`: compares rows, cols,
seeds and the embedded cardinality-sketch config. -/
def spread_config_eq {L I : Type} (a b : SpreadConfig L I) : Prop :=
  a.num_rows = b.num_rows ∧ a.num_cols = b.num_cols ∧ a.seeds = b.seeds ∧
    hll_config_eq a.cardinality_sketch_config b.cardinality_sketch_config

instance {L I : Type} (a b : SpreadConfig L I) : Decidable (spread_config_eq a b) := by
  unfold spread_config_eq; infer_instance

/-- State of `SpreadSketch` (`spread/src/lib.rs`): `num_rows × num_cols`
buckets in row-major order. -/
structure SpreadState (L I : Type) : Type where
  config : SpreadConfig L I
  buckets : List (Bucket L I)

/-- `SpreadSketch::row_hash`. -/
def spread_row_hash {L I : Type} (c : SpreadConfig L I) (row : ℕ) (l : L) : ℕ :=
  (c.hash_row row l % 2 ^ 64) % c.num_cols

/-- `SpreadSketch::bucket_index`. -/
def spread_bucket_index {L I : Type} (c : SpreadConfig L I) (row col : ℕ) : ℕ :=
  row * c.num_cols + col

/-- `SpreadSketch::merge` (`spread/src/lib.rs:116-125`). -/
def spread_merge {L I : Type} (s o : SpreadState L I) : Option MergeError × SpreadState L I :=
  if spread_config_eq s.config o.config then
    (none,
      { s with
        buckets := s.buckets.zipWith bucket_merge o.buckets ++ s.buckets.drop o.buckets.length })
  else (some .configMismatch, s)

/-- `SpreadSketch::clear` (`spread/src/lib.rs:127-129`) is `todo!()`:
calling it panics, modelled as `none`. -/
def spread_clear {L I : Type} (_s : SpreadState L I) : Option (SpreadState L I) := none

/-- `SpreadSketch::cardinality` (`spread/src/lib.rs:131-141`): minimum
bucket count over the rows (the `unwrap` of the `min` cannot fail for the
non-zero row counts enforced by the config; the model returns 0 there). -/
noncomputable def spread_cardinality {L I : Type} (s : SpreadState L I) (l : L) : ℕ :=
  (((List.range s.config.num_rows).map fun r =>
      bucket_count (s.buckets.getD (spread_bucket_index s.config r (spread_row_hash s.config r l)) default)).min?).getD 0

/-- The itertools `sorted_by_key` comparison used by `SpreadSketch::top`:
ascending in the key `-(cardinality as i32)` (a 32-bit truncating cast
followed by a wrapping negation). -/
def spread_top_le {L : Type} (p q : L × ℕ) : Prop :=
  i32_neg (toInt32 p.2) ≤ i32_neg (toInt32 q.2)

instance {L : Type} (p q : L × ℕ) : Decidable (spread_top_le p q) := by
  unfold spread_top_le; infer_instance

/-- `SpreadSketch::top` (`spread/src/lib.rs:143-153`): unique owner labels
over all buckets, scored by `cardinality`, sorted (stably) by the key
`-(cardinality as i32)` ascending, first `k`. -/
noncomputable def spread_top {L I : Type} [DecidableEq L] (s : SpreadState L I) (k : ℕ) :
    List (L × ℕ) :=
  let owners := itertools_unique (s.buckets.filterMap fun b => b.label)
  ((owners.map fun l => (l, spread_cardinality s l)).insertionSort spread_top_le).take k

/-- Reset policy of a Space-Saving-Sets counter (`sss/src/counter.rs`). -/
inductive ResetStrategy : Type
  | recycle
  | offset
deriving DecidableEq

/-- A cached cardinality sketch (`sss/src/cached.rs`, `ssss/src/cached.rs`):
the inner sketch plus the most recently computed cardinality. -/
structure Cached (I : Type) : Type where
  sketch : HllState I
  cardinality : ℕ

/-- `Cached::new`. -/
def cached_new {I : Type} (c : HllConfig I) : Cached I := ⟨hll_new c, 0⟩

/-- `Cached::insert`: insert, then refresh the cached cardinality. -/
noncomputable def cached_insert {I : Type} (c : Cached I) (x : I) : Cached I :=
  let sk := hll_insert c.sketch x
  ⟨sk, hll_cardinality sk⟩

/-- `Cached::merge`: on inner `ConfigMismatch` the error propagates with
the receiver unchanged; otherwise refresh the cached cardinality. -/
noncomputable def cached_merge {I : Type} (a b : Cached I) : Option MergeError × Cached I :=
  match hll_merge a.sketch b.sketch with
  | (some e, _) => (some e, a)
  | (none, sk) => (none, ⟨sk, hll_cardinality sk⟩)

/-- `Cached::cardinality` is the O(1) cached value. -/
def cached_cardinality {I : Type} (c : Cached I) : ℕ := c.cardinality

/-- `Cached::clear`. -/
def cached_clear {I : Type} (c : Cached I) : Cached I := ⟨hll_clear c.sketch, 0⟩

/-- An SSS counter (`sss/src/counter.rs`): cached sketch plus offset. -/
structure Counter (I : Type) : Type where
  sketch : Cached I
  offset : ℕ

/-- `Counter::new`. -/
def counter_new {I : Type} (c : Cached I) : Counter I := ⟨c, 0⟩

/-- `Counter::reset`: `Recycle` keeps the sketch; `Offset` banks the
cached cardinality into the offset and clears the sketch. -/
def counter_reset {I : Type} (c : Counter I) (rs : ResetStrategy) : Counter I :=
  match rs with
  | .recycle => c
  | .offset => ⟨cached_clear c.sketch, c.offset + cached_cardinality c.sketch⟩

/-- `Counter::offset_cardinality`. -/
def counter_offset_cardinality {I : Type} (c : Counter I) : ℕ :=
  cached_cardinality c.sketch + c.offset

/-- Configuration of `SpaceSavingSets` (`sss/src/config.rs`). -/
structure SssConfig (I : Type) : Type where
  max_num_counters : ℕ
  reset_strategy : ResetStrategy
  cardinality_sketch_config : HllConfig I

/-- The derived `PartialEq` of `sss::Config` compares all three fields. -/
def sss_config_eq {I : Type} (a b : SssConfig I) : Prop :=
  a.max_num_counters = b.max_num_counters ∧ a.reset_strategy = b.reset_strategy ∧
    hll_config_eq a.cardinality_sketch_config b.cardinality_sketch_config

instance {I : Type} (a b : SssConfig I) : Decidable (sss_config_eq a b) := by
  unfold sss_config_eq; infer_instance

/-- State of `SpaceSavingSets` (`sss/src/lib.rs`); the `HashMap` is an
association list. -/
structure SssState (L I : Type) : Type where
  config : SssConfig I
  counters : List (L × Counter I)

/-- `SpaceSavingSets::new`. -/
def sss_new {L I : Type} (c : SssConfig I) : SssState L I := ⟨c, []⟩

/-- `SpaceSavingSets::insert` (`sss/src/lib.rs:55-73`): update a tracked
label in place; append when below capacity; otherwise evict the entry with
the minimum offset-adjusted cardinality, reset it under the configured
strategy and reattach it under the new label, then insert the item. -/
noncomputable def sss_insert {L I : Type} [DecidableEq L] (s : SssState L I) (label : L)
    (x : I) : SssState L I :=
  if (alist_lookup label s.counters).isSome then
    { s with
      counters := alist_update label (fun c => { c with sketch := cached_insert c.sketch x })
        s.counters }
  else if s.counters.length = s.config.max_num_counters then
    match min_by_key counter_offset_cardinality s.counters with
    | some (minLabel, _) =>
      let c :=
        (alist_lookup minLabel s.counters).getD
          (counter_new (cached_new s.config.cardinality_sketch_config))
      let c2 := counter_reset c s.config.reset_strategy
      { s with
        counters :=
          alist_remove minLabel s.counters ++
            [(label, { c2 with sketch := cached_insert c2.sketch x })] }
    | none => s
  else
    { s with
      counters :=
        s.counters ++
          [(label, counter_new (cached_insert (cached_new s.config.cardinality_sketch_config) x))] }

/-- The post-merge trim shared by SSS and SSSS (`sss/src/lib.rs:90-106`,
`ssss/src/lib.rs:134-151`): sort the entries by cardinality ascending
(stable), reverse, skip the first `max` and remove the remaining labels. -/
def sss_trim {L β : Type} [DecidableEq L] (max_counters : ℕ) (card : β → ℕ)
    (counters : List (L × β)) : List (L × β) :=
  let entries := counters.map fun p => (p.1, card p.2)
  let sorted := entries.insertionSort fun p q => p.2 ≤ q.2
  ((sorted.reverse.drop max_counters).map fun p => p.1).foldl
    (fun m l => alist_remove l m) counters

/-- `SpaceSavingSets::merge` (`sss/src/lib.rs:75-108`): reject on config
mismatch before any mutation; otherwise fold the other's counters in
(creating missing entries), then trim back to `max_num_counters` (the
inner `unwrap` cannot fail when both sides are well formed; the model
keeps the merged sketch unconditionally). -/
noncomputable def sss_merge {L I : Type} [DecidableEq L] (s o : SssState L I) :
    Option MergeError × SssState L I :=
  if sss_config_eq s.config o.config then
    let combined :=
      o.counters.foldl
        (fun m p =>
          if (alist_lookup p.1 m).isSome then
            alist_update p.1 (fun c => { c with sketch := (cached_merge c.sketch p.2.sketch).2 }) m
          else
            m ++
              [(p.1,
                counter_new
                  ((cached_merge (cached_new s.config.cardinality_sketch_config) p.2.sketch).2))])
        s.counters
    (none,
      { s with
        counters := sss_trim s.config.max_num_counters counter_offset_cardinality combined })
  else (some .configMismatch, s)

/-- `SpaceSavingSets::clear` (`sss/src/lib.rs:110-112`) is `todo!()`:
calling it panics, modelled as `none`. -/
def sss_clear {L I : Type} (_s : SssState L I) : Option (SssState L I) := none

/-- `SpaceSavingSets::cardinality` (`sss/src/lib.rs:114-125`). -/
def sss_cardinality {L I : Type} [DecidableEq L] (s : SssState L I) (label : L) : ℕ :=
  match alist_lookup label s.counters with
  | some c => counter_offset_cardinality c
  | none => ((s.counters.map fun p => counter_offset_cardinality p.2).min?).getD 0

/-- Configuration of `SamplingSpaceSavingSets` (`ssss/src/config.rs`). -/
structure SsssConfig (I : Type) : Type where
  max_num_counters : ℕ
  seeds : List ℕ
  hash_builder : I → ℕ
  cardinality_sketch_config : HllConfig I

/-- The `PartialEq` instance of `ssss::Config`: compares
`max_num_counters`, seeds and the embedded config (not the builder). -/
def ssss_config_eq {I : Type} (a b : SsssConfig I) : Prop :=
  a.max_num_counters = b.max_num_counters ∧ a.seeds = b.seeds ∧
    hll_config_eq a.cardinality_sketch_config b.cardinality_sketch_config

instance {I : Type} (a b : SsssConfig I) : Decidable (ssss_config_eq a b) := by
  unfold ssss_config_eq; infer_instance

/-- State of `SamplingSpaceSavingSets` (`ssss/src/lib.rs`). -/
structure SsssState (L I : Type) : Type where
  config : SsssConfig I
  counters : List (L × Cached I)
  threshold : ℕ

/-- `SamplingSpaceSavingSets::new`. -/
def ssss_new {L I : Type} (c : SsssConfig I) : SsssState L I := ⟨c, [], 0⟩

/-- `SamplingSpaceSavingSets::cardinality_estimate`
(`ssss/src/lib.rs:191-193`): `(u64::MAX as f64 / hash as f64) as u64`,
modelled with explicit double rounding.  A zero hash divides to `+∞`,
which the saturating cast sends to `u64::MAX`. -/
def ssss_cardinality_estimate {I : Type} (c : SsssConfig I) (x : I) : ℕ :=
  let h : ℕ := c.hash_builder x % 2 ^ 64
  if h = 0 then 2 ^ 64 - 1
  else f64_to_u64 (f64_div u64_max_as_f64 (rnd53 (h : ℚ)))

/-- `SamplingSpaceSavingSets::insert` (`ssss/src/lib.rs:75-113`): tracked
labels update in place; below capacity a new counter is appended; at
capacity the cheap estimate must first exceed `threshold` (which is then
set to the minimum cached cardinality) and then that minimum, in which
case the minimum entry is remapped to the new label. -/
noncomputable def ssss_insert {L I : Type} [DecidableEq L] (s : SsssState L I) (label : L)
    (x : I) : SsssState L I :=
  if (alist_lookup label s.counters).isSome then
    { s with counters := alist_update label (fun c => cached_insert c x) s.counters }
  else if s.counters.length < s.config.max_num_counters then
    { s with
      counters :=
        s.counters ++ [(label, cached_insert (cached_new s.config.cardinality_sketch_config) x)] }
  else
    let est := ssss_cardinality_estimate s.config x
    if s.threshold < est then
      match min_by_key cached_cardinality s.counters with
      | some (minLabel, minC) =>
        if cached_cardinality minC < est then
          let mc :=
            (alist_lookup minLabel s.counters).getD (cached_new s.config.cardinality_sketch_config)
          { s with
            counters := alist_remove minLabel s.counters ++ [(label, cached_insert mc x)]
            threshold := cached_cardinality mc }
        else { s with threshold := cached_cardinality minC }
      | none => s
    else s

/-- `SamplingSpaceSavingSets::merge` (`ssss/src/lib.rs:115-154`): reject
on config mismatch before any mutation; otherwise lower the threshold to
the other's if smaller, fold the other's counters in, and trim back to
`max_num_counters`. -/
noncomputable def ssss_merge {L I : Type} [DecidableEq L] (s o : SsssState L I) :
    Option MergeError × SsssState L I :=
  if ssss_config_eq s.config o.config then
    let combined :=
      o.counters.foldl
        (fun m p =>
          if (alist_lookup p.1 m).isSome then
            alist_update p.1 (fun c => (cached_merge c p.2).2) m
          else m ++ [(p.1, (cached_merge (cached_new s.config.cardinality_sketch_config) p.2).2)])
        s.counters
    (none,
      { s with
        threshold := min o.threshold s.threshold
        counters := sss_trim s.config.max_num_counters cached_cardinality combined })
  else (some .configMismatch, s)

/-- `SamplingSpaceSavingSets::clear` (`ssss/src/lib.rs:156-158`) is
`todo!()`: calling it panics, modelled as `none`. -/
def ssss_clear {L I : Type} (_s : SsssState L I) : Option (SsssState L I) := none

/-- `SamplingSpaceSavingSets::cardinality` (`ssss/src/lib.rs:160-171`). -/
def ssss_cardinality {L I : Type} [DecidableEq L] (s : SsssState L I) (label : L) : ℕ :=
  match alist_lookup label s.counters with
  | some c => cached_cardinality c
  | none => ((s.counters.map fun p => cached_cardinality p.2).min?).getD 0

/-- States of `SpaceSavingSets` reachable from `new(config)` by inserts
and merges (`sss::Config::new` rejects a zero size, hence the positivity
side condition). -/
inductive sss_reachable {L I : Type} [DecidableEq L] : SssState L I → Prop
  | new : ∀ c : SssConfig I, 0 < c.max_num_counters → sss_reachable (sss_new c)
  | insert : ∀ s label x, sss_reachable s → sss_reachable (sss_insert s label x)
  | merge : ∀ s o, sss_reachable s → sss_reachable (sss_merge s o).2

/-- States of `SamplingSpaceSavingSets` reachable from `new(config)` by
inserts and merges. -/
inductive ssss_reachable {L I : Type} [DecidableEq L] : SsssState L I → Prop
  | new : ∀ c : SsssConfig I, 0 < c.max_num_counters → ssss_reachable (ssss_new c)
  | insert : ∀ s label x, ssss_reachable s → ssss_reachable (ssss_insert s label x)
  | merge : ∀ s o, ssss_reachable s → ssss_reachable (ssss_merge s o).2

instance {L : Type} : IsTotal (L × ℕ) spread_top_le :=
  ⟨fun p q => le_total (i32_neg (toInt32 p.2)) (i32_neg (toInt32 q.2))⟩

instance {L : Type} : IsTrans (L × ℕ) spread_top_le :=
  ⟨fun _ _ _ h1 h2 => le_trans h1 h2⟩

/-- Induction invariant for reachable SSS states: a validated (non-zero)
capacity, the size bound, and no duplicate keys in the map model. -/
def sss_inv {L I : Type} (s : SssState L I) : Prop :=
  0 < s.config.max_num_counters ∧ s.counters.length ≤ s.config.max_num_counters ∧
    (s.counters.map Prod.fst).Nodup

/-- Induction invariant for reachable SSSS states. -/
def ssss_inv {L I : Type} (s : SsssState L I) : Prop :=
  0 < s.config.max_num_counters ∧ s.counters.length ≤ s.config.max_num_counters ∧
    (s.counters.map Prod.fst).Nodup

theorem alist_lookup_eq_none_iff {κ β : Type} [DecidableEq κ] (k : κ) (m : List (κ × β)) :
    alist_lookup k m = none ↔ k ∉ m.map Prod.fst := by
  induction m with
  | nil => simp [alist_lookup]
  | cons p t ih =>
    obtain ⟨k2, v⟩ := p
    by_cases h : k2 = k
    · subst h
      simp [alist_lookup]
    · simp only [alist_lookup, if_neg h, List.map_cons, List.mem_cons, ih]
      constructor
      · intro h2 h3
        rcases h3 with h3 | h3
        · exact h h3.symm
        · exact h2 h3
      · intro h2 h3
        exact h2 (Or.inr h3)

theorem alist_lookup_isSome_iff {κ β : Type} [DecidableEq κ] (k : κ) (m : List (κ × β)) :
    (alist_lookup k m).isSome ↔ k ∈ m.map Prod.fst := by
  constructor
  · intro h
    by_contra h2
    rw [← alist_lookup_eq_none_iff] at h2
    rw [h2] at h
    simp at h
  · intro h
    cases h2 : alist_lookup k m with
    | none => exact absurd ((alist_lookup_eq_none_iff k m).mp h2) (by simp [h])
    | some v => rfl

theorem map_fst_alist_update {κ β : Type} [DecidableEq κ] (k : κ) (f : β → β)
    (m : List (κ × β)) : (alist_update k f m).map Prod.fst = m.map Prod.fst := by
  induction m with
  | nil => rfl
  | cons p t ih =>
    obtain ⟨k2, v⟩ := p
    by_cases h : k2 = k <;> simp [alist_update, h, ih]

theorem length_alist_update {κ β : Type} [DecidableEq κ] (k : κ) (f : β → β)
    (m : List (κ × β)) : (alist_update k f m).length = m.length := by
  have h := congrArg List.length (map_fst_alist_update k f m)
  simpa using h

theorem map_fst_alist_remove_sublist {κ β : Type} [DecidableEq κ] (k : κ)
    (m : List (κ × β)) : ((alist_remove k m).map Prod.fst).Sublist (m.map Prod.fst) := by
  induction m with
  | nil => simp [alist_remove]
  | cons p t ih =>
    obtain ⟨k2, v⟩ := p
    by_cases h : k2 = k
    · subst h
      simp only [alist_remove, if_pos rfl, List.map_cons]
      exact List.sublist_cons_self k2 (t.map Prod.fst)
    · simpa [alist_remove, h] using ih.cons₂ k2

theorem length_alist_remove_of_mem {κ β : Type} [DecidableEq κ] {k : κ}
    {m : List (κ × β)} (h : k ∈ m.map Prod.fst) :
    (alist_remove k m).length + 1 = m.length := by
  induction m with
  | nil => simp at h
  | cons p t ih =>
    obtain ⟨k2, v⟩ := p
    by_cases hk : k2 = k
    · simp [alist_remove, hk]
    · have h2 : k ∈ t.map Prod.fst := by
        rcases List.mem_cons.mp h with h3 | h3
        · exact absurd h3.symm hk
        · exact h3
      simp [alist_remove, hk, ih h2]

theorem mem_map_fst_alist_remove {κ β : Type} [DecidableEq κ] {l k : κ}
    (m : List (κ × β)) (hne : l ≠ k) :
    l ∈ (alist_remove k m).map Prod.fst ↔ l ∈ m.map Prod.fst := by
  induction m with
  | nil => simp [alist_remove]
  | cons p t ih =>
    obtain ⟨k2, v⟩ := p
    by_cases hk : k2 = k
    · subst hk
      simp only [alist_remove, if_pos rfl, List.map_cons, List.mem_cons]
      constructor
      · exact Or.inr
      · intro h
        rcases h with h | h
        · exact absurd h hne
        · exact h
    · simp [alist_remove, hk, ih]

theorem alist_lookup_of_mem_nodup {κ β : Type} [DecidableEq κ] {k : κ} {v : β}
    {m : List (κ × β)} (hnd : (m.map Prod.fst).Nodup) (hmem : (k, v) ∈ m) :
    alist_lookup k m = some v := by
  induction m with
  | nil => simp at hmem
  | cons p t ih =>
    obtain ⟨k2, v2⟩ := p
    simp only [List.map_cons, List.nodup_cons] at hnd
    rcases List.mem_cons.mp hmem with h | h
    · have h1 : k = k2 := congrArg Prod.fst h
      have h2 : v = v2 := congrArg Prod.snd h
      subst h1; subst h2
      simp [alist_lookup]
    · have hne : k2 ≠ k := by
        intro he
        subst he
        exact hnd.1 (List.mem_map.mpr ⟨(k2, v), h, rfl⟩)
      simpa [alist_lookup, hne] using ih hnd.2 h

theorem min_by_key_spec {κ β : Type} (f : β → ℕ) (m : List (κ × β)) :
    (m = [] ∧ min_by_key f m = none) ∨
      ∃ k v, min_by_key f m = some (k, v) ∧ (k, v) ∈ m ∧ ∀ q ∈ m, f v ≤ f q.2 := by
  induction m with
  | nil => exact Or.inl ⟨rfl, rfl⟩
  | cons p t ih =>
    right
    obtain ⟨k2, v2⟩ := p
    rcases ih with ⟨ht, hm⟩ | ⟨k3, v3, hm, hmem, hle⟩
    · subst ht
      refine ⟨k2, v2, by simp [min_by_key], by simp, ?_⟩
      intro q hq
      rcases List.mem_cons.mp hq with h | h
      · exact le_of_eq (congrArg (f ∘ Prod.snd) h.symm)
      · simp at h
    · by_cases hc : f v2 ≤ f v3
      · refine ⟨k2, v2, by simp [min_by_key, hm, hc], by simp, ?_⟩
        intro q hq
        rcases List.mem_cons.mp hq with h | h
        · exact le_of_eq (congrArg (f ∘ Prod.snd) h.symm)
        · exact le_trans hc (hle q h)
      · refine ⟨k3, v3, by simp [min_by_key, hm, hc], List.mem_cons_of_mem _ hmem, ?_⟩
        intro q hq
        rcases List.mem_cons.mp hq with h | h
        · exact le_of_lt (lt_of_le_of_lt (le_refl _) (by
            have h2 := lt_of_not_ge hc
            exact h ▸ h2))
        · exact hle q h

theorem sum_map_set (f : ℕ → ℚ) (l : List ℕ) (i z : ℕ) (h : i < l.length) :
    ((l.set i z).map f).sum = (l.map f).sum - f (l.getD i 0) + f z := by
  induction l generalizing i with
  | nil => simp at h
  | cons a t ih =>
    cases i with
    | zero => simp [List.set]; ring
    | succ i =>
      have h2 : i < t.length := by simpa using h
      simp only [List.set, List.map_cons, List.sum_cons, List.getD_cons_succ, ih i h2]
      ring

theorem hll_insert_hash_eq {I : Type} (s : HllState I) (x : I) (z : ℕ) :
    hll_insert_hash s x z =
      if s.registers.getD ((s.config.hash_index x % 2 ^ 64) &&& (s.config.num_registers - 1)) 0
          < z then
        { s with
          registers :=
            s.registers.set ((s.config.hash_index x % 2 ^ 64) &&& (s.config.num_registers - 1)) z
          num_zero_registers :=
            if s.registers.getD ((s.config.hash_index x % 2 ^ 64) &&& (s.config.num_registers - 1))
                0 = 0 then
              s.num_zero_registers - 1
            else s.num_zero_registers
          z_inv :=
            s.z_inv -
                invPow2
                  (s.registers.getD
                    ((s.config.hash_index x % 2 ^ 64) &&& (s.config.num_registers - 1)) 0) +
              invPow2 z }
      else s := rfl

theorem hll_inv_new {I : Type} (c : HllConfig I) (h : 0 < c.num_registers) :
    hll_inv (hll_new c) := by
  refine ⟨h, by simp [hll_new], by simp [hll_new], ?_⟩
  simp [hll_new, invPow2]

theorem hll_inv_insert_hash {I : Type} (s : HllState I) (x : I) (z : ℕ)
    (h : hll_inv s) : hll_inv (hll_insert_hash s x z) := by
  obtain ⟨hm, hlen, hcnt, hsum⟩ := h
  rw [hll_insert_hash_eq]
  set r := (s.config.hash_index x % 2 ^ 64) &&& (s.config.num_registers - 1) with hr
  have hrlt : r < s.registers.length := by
    have h1 : r ≤ s.config.num_registers - 1 := Nat.and_le_right
    omega
  have hge : s.registers.getD r 0 = s.registers[r] := List.getD_eq_getElem _ _ hrlt
  by_cases hlt : s.registers.getD r 0 < z
  · rw [if_pos hlt]
    refine ⟨hm, by simp [hlen], ?_, ?_⟩
    · rw [List.count_set (a := z) (b := 0) (l := s.registers) (i := r) hrlt]
      have hzb : (z == 0) = false := beq_eq_false_iff_ne.mpr (by omega)
      by_cases h0 : s.registers.getD r 0 = 0
      · have hb : (s.registers[r] == 0) = true := beq_iff_eq.mpr (hge ▸ h0)
        have hpos : 0 < s.registers.count 0 :=
          List.count_pos_iff.mpr (by rw [← h0, hge]; exact List.getElem_mem hrlt)
        simp only [if_pos h0, hb, hzb, hcnt]
        simp only [Bool.false_eq_true, if_true, if_false]
        omega
      · have hb : (s.registers[r] == 0) = false := beq_eq_false_iff_ne.mpr (hge ▸ h0)
        simp only [if_neg h0, hb, hzb, hcnt]
        simp only [Bool.false_eq_true, if_false]
        omega
    · rw [sum_map_set invPow2 _ _ _ hrlt, ← hsum]
  · rw [if_neg hlt]
    exact ⟨hm, hlen, hcnt, hsum⟩

theorem hll_inv_insert {I : Type} (s : HllState I) (x : I) (h : hll_inv s) :
    hll_inv (hll_insert s x) :=
  hll_inv_insert_hash s x _ h

theorem hll_inv_merge {I : Type} (s o : HllState I) (h : hll_inv s) :
    hll_inv (hll_merge s o).2 := by
  obtain ⟨hm, hlen, hcnt, hsum⟩ := h
  by_cases hc : hll_config_eq s.config o.config
  · simp only [hll_merge, if_pos hc]
    refine ⟨hm, ?_, rfl, rfl⟩
    simp only [List.length_append, List.length_zipWith, List.length_drop]
    have h2 : s.registers.length ⊓ o.registers.length ≤ s.registers.length := inf_le_left
    have h3 : s.registers.length ⊓ o.registers.length = min s.registers.length o.registers.length :=
      rfl
    omega
  · simp only [hll_merge, if_neg hc]
    exact ⟨hm, hlen, hcnt, hsum⟩

theorem hll_inv_clear {I : Type} (s : HllState I) (h : hll_inv s) :
    hll_inv (hll_clear s) := by
  obtain ⟨hm, hlen, hcnt, hsum⟩ := h
  refine ⟨hm, by simp [hll_clear, hlen], by simp [hll_clear, hlen], ?_⟩
  simp [hll_clear, hlen, invPow2]

theorem hll_inv_of_reachable {I : Type} (s : HllState I) (h : hll_reachable s) :
    hll_inv s := by
  induction h with
  | new c hc => exact hll_inv_new c hc
  | insert s x _ ih => exact hll_inv_insert s x ih
  | merge s o _ _ ihs _ => exact hll_inv_merge s o ihs
  | clear s _ ih => exact hll_inv_clear s ih

/-- C10: `SpaceSavingSets::clear`, `SamplingSpaceSavingSets::clear` and
`SpreadSketch::clear` are `todo!()` stubs: on every state they panic
(modelled as `none`) and never return normally. -/
theorem clear_stubs_always_panic {L I : Type} :
    ∀ (s1 : SssState L I) (s2 : SsssState L I) (s3 : SpreadState L I),
      sss_clear s1 = none ∧ ssss_clear s2 = none ∧ spread_clear s3 = none :=
  fun _ _ _ => ⟨rfl, rfl, rfl⟩

/-- C2: in every HyperLogLog state reachable from `new` by inserts, merges
and clears, the cached `num_zero_registers` equals the number of zero
registers and the cached `z_inv` equals `Σ 2^(−rᵢ)` over the register
vector. -/
theorem hll_caches_agree_of_reachable {I : Type} (s : HllState I) (h : hll_reachable s) :
    s.num_zero_registers = s.registers.count 0 ∧
      s.z_inv = (s.registers.map invPow2).sum :=
  ⟨(hll_inv_of_reachable s h).2.2.1, (hll_inv_of_reachable s h).2.2.2⟩

/-- Witness for C2 at a concrete reachable state (one insert after `new`). -/
theorem hll_caches_agree_of_reachable_witness :
    (hll_insert (hll_new ⟨16, 673 / 1000, [0, 1], fun _ : ℕ => 0, fun _ => 1⟩) 7).num_zero_registers =
        ((hll_insert (hll_new ⟨16, 673 / 1000, [0, 1], fun _ : ℕ => 0, fun _ => 1⟩) 7).registers.count 0) ∧
      (hll_insert (hll_new ⟨16, 673 / 1000, [0, 1], fun _ : ℕ => 0, fun _ => 1⟩) 7).z_inv =
        (((hll_insert (hll_new ⟨16, 673 / 1000, [0, 1], fun _ : ℕ => 0, fun _ => 1⟩) 7).registers.map invPow2).sum) :=
  hll_caches_agree_of_reachable _
    (hll_reachable.insert _ 7 (hll_reachable.new _ (by norm_num)))

/-- C1: for each of the five sketches, `merge` against a sketch with a
different configuration (structural comparison including seeds) fails with
`ConfigMismatch` and leaves the receiver untouched, while `merge` against
a sketch with an equal configuration returns `Ok`. -/
theorem merge_requires_equal_configs {L I : Type} [DecidableEq L] :
    (∀ s o : HllState I,
        (¬ hll_config_eq s.config o.config →
          hll_merge s o = (some MergeError.configMismatch, s)) ∧
        (hll_config_eq s.config o.config → (hll_merge s o).1 = none)) ∧
    (∀ s o : PwState L I,
        (¬ pw_config_eq s.config o.config →
          pw_merge s o = (some MergeError.configMismatch, s)) ∧
        (pw_config_eq s.config o.config → (pw_merge s o).1 = none)) ∧
    (∀ s o : SpreadState L I,
        (¬ spread_config_eq s.config o.config →
          spread_merge s o = (some MergeError.configMismatch, s)) ∧
        (spread_config_eq s.config o.config → (spread_merge s o).1 = none)) ∧
    (∀ s o : SssState L I,
        (¬ sss_config_eq s.config o.config →
          sss_merge s o = (some MergeError.configMismatch, s)) ∧
        (sss_config_eq s.config o.config → (sss_merge s o).1 = none)) ∧
    (∀ s o : SsssState L I,
        (¬ ssss_config_eq s.config o.config →
          ssss_merge s o = (some MergeError.configMismatch, s)) ∧
        (ssss_config_eq s.config o.config → (ssss_merge s o).1 = none)) :=
  ⟨fun s o => ⟨fun h => by simp [hll_merge, h], fun h => by simp [hll_merge, h]⟩,
    fun s o => ⟨fun h => by simp [pw_merge, h], fun h => by simp [pw_merge, h]⟩,
    fun s o => ⟨fun h => by simp [spread_merge, h], fun h => by simp [spread_merge, h]⟩,
    fun s o => ⟨fun h => by simp [sss_merge, h], fun h => by simp [sss_merge, h]⟩,
    fun s o => ⟨fun h => by simp [ssss_merge, h], fun h => by simp [ssss_merge, h]⟩⟩

/-- Witness for C1: concrete mismatching and matching pairs for all five
sketch types. -/
theorem merge_requires_equal_configs_witness :
    hll_merge (hll_new (⟨16, 0, [], fun _ => 0, fun _ => 0⟩ : HllConfig ℕ))
        (hll_new ⟨32, 0, [], fun _ => 0, fun _ => 0⟩) =
      (some MergeError.configMismatch, hll_new ⟨16, 0, [], fun _ => 0, fun _ => 0⟩) ∧
    (hll_merge (hll_new (⟨16, 0, [], fun _ => 0, fun _ => 0⟩ : HllConfig ℕ))
        (hll_new ⟨16, 0, [], fun _ => 0, fun _ => 0⟩)).1 = none ∧
    pw_merge (⟨⟨1, 0, 1, [], fun _ _ => 0, fun _ _ => 0, fun _ _ => 0,
          .maximumLikelihood⟩, []⟩ : PwState ℕ ℕ)
        ⟨⟨1, 0, 2, [], fun _ _ => 0, fun _ _ => 0, fun _ _ => 0, .maximumLikelihood⟩, []⟩ =
      (some MergeError.configMismatch,
        ⟨⟨1, 0, 1, [], fun _ _ => 0, fun _ _ => 0, fun _ _ => 0, .maximumLikelihood⟩, []⟩) ∧
    (pw_merge (⟨⟨1, 0, 1, [], fun _ _ => 0, fun _ _ => 0, fun _ _ => 0,
          .maximumLikelihood⟩, []⟩ : PwState ℕ ℕ)
        ⟨⟨1, 0, 1, [], fun _ _ => 0, fun _ _ => 0, fun _ _ => 0, .maximumLikelihood⟩, []⟩).1 =
      none ∧
    spread_merge (⟨⟨1, 1, [], fun _ _ => 0, fun _ _ => 0,
          ⟨16, 0, [], fun _ => 0, fun _ => 0⟩⟩, []⟩ : SpreadState ℕ ℕ)
        ⟨⟨2, 1, [], fun _ _ => 0, fun _ _ => 0, ⟨16, 0, [], fun _ => 0, fun _ => 0⟩⟩, []⟩ =
      (some MergeError.configMismatch,
        ⟨⟨1, 1, [], fun _ _ => 0, fun _ _ => 0, ⟨16, 0, [], fun _ => 0, fun _ => 0⟩⟩, []⟩) ∧
    (spread_merge (⟨⟨1, 1, [], fun _ _ => 0, fun _ _ => 0,
          ⟨16, 0, [], fun _ => 0, fun _ => 0⟩⟩, []⟩ : SpreadState ℕ ℕ)
        ⟨⟨1, 1, [], fun _ _ => 0, fun _ _ => 0, ⟨16, 0, [], fun _ => 0, fun _ => 0⟩⟩, []⟩).1 =
      none ∧
    sss_merge (⟨⟨1, .recycle, ⟨16, 0, [], fun _ => 0, fun _ => 0⟩⟩, []⟩ : SssState ℕ ℕ)
        ⟨⟨2, .recycle, ⟨16, 0, [], fun _ => 0, fun _ => 0⟩⟩, []⟩ =
      (some MergeError.configMismatch,
        ⟨⟨1, .recycle, ⟨16, 0, [], fun _ => 0, fun _ => 0⟩⟩, []⟩) ∧
    (sss_merge (⟨⟨1, .recycle, ⟨16, 0, [], fun _ => 0, fun _ => 0⟩⟩, []⟩ : SssState ℕ ℕ)
        ⟨⟨1, .recycle, ⟨16, 0, [], fun _ => 0, fun _ => 0⟩⟩, []⟩).1 = none ∧
    ssss_merge (⟨⟨1, [], fun _ => 0, ⟨16, 0, [], fun _ => 0, fun _ => 0⟩⟩, [], 0⟩ : SsssState ℕ ℕ)
        ⟨⟨2, [], fun _ => 0, ⟨16, 0, [], fun _ => 0, fun _ => 0⟩⟩, [], 0⟩ =
      (some MergeError.configMismatch,
        ⟨⟨1, [], fun _ => 0, ⟨16, 0, [], fun _ => 0, fun _ => 0⟩⟩, [], 0⟩) ∧
    (ssss_merge (⟨⟨1, [], fun _ => 0, ⟨16, 0, [], fun _ => 0, fun _ => 0⟩⟩, [], 0⟩ : SsssState ℕ ℕ)
        ⟨⟨1, [], fun _ => 0, ⟨16, 0, [], fun _ => 0, fun _ => 0⟩⟩, [], 0⟩).1 = none := by
  refine ⟨?_, ?_, ?_, ?_, ?_, ?_, ?_, ?_, ?_, ?_⟩
  · exact (merge_requires_equal_configs (L := ℕ) (I := ℕ)).1 _ _ |>.1
      (by simp [hll_new, hll_config_eq])
  · exact (merge_requires_equal_configs (L := ℕ) (I := ℕ)).1 _ _ |>.2 ⟨rfl, rfl, rfl⟩
  · exact (merge_requires_equal_configs (L := ℕ) (I := ℕ)).2.1 _ _ |>.1
      (by simp [pw_config_eq])
  · exact (merge_requires_equal_configs (L := ℕ) (I := ℕ)).2.1 _ _ |>.2
      ⟨rfl, rfl, rfl, rfl, rfl⟩
  · exact (merge_requires_equal_configs (L := ℕ) (I := ℕ)).2.2.1 _ _ |>.1
      (by simp [spread_config_eq])
  · exact (merge_requires_equal_configs (L := ℕ) (I := ℕ)).2.2.1 _ _ |>.2
      ⟨rfl, rfl, rfl, rfl, rfl, rfl⟩
  · exact (merge_requires_equal_configs (L := ℕ) (I := ℕ)).2.2.2.1 _ _ |>.1
      (by simp [sss_config_eq])
  · exact (merge_requires_equal_configs (L := ℕ) (I := ℕ)).2.2.2.1 _ _ |>.2
      ⟨rfl, rfl, rfl, rfl, rfl⟩
  · exact (merge_requires_equal_configs (L := ℕ) (I := ℕ)).2.2.2.2 _ _ |>.1
      (by simp [ssss_config_eq])
  · exact (merge_requires_equal_configs (L := ℕ) (I := ℕ)).2.2.2.2 _ _ |>.2
      ⟨rfl, rfl, rfl, rfl, rfl⟩

/-- C3: for both SSS and SSSS, `cardinality(label)` returns the entry's
(offset-adjusted, for SSS) cached cardinality when tracked; the minimum
(offset-adjusted) cardinality over all entries when untracked and the map
is non-empty; and `0` when the map is empty. -/
theorem cardinality_tracked_else_min {L I : Type} [DecidableEq L] :
    (∀ (s : SssState L I) (l : L),
        (∀ c, alist_lookup l s.counters = some c →
          sss_cardinality s l = counter_offset_cardinality c) ∧
        (alist_lookup l s.counters = none → s.counters = [] → sss_cardinality s l = 0) ∧
        (alist_lookup l s.counters = none → s.counters ≠ [] →
          (∃ p ∈ s.counters, sss_cardinality s l = counter_offset_cardinality p.2) ∧
            ∀ p ∈ s.counters, sss_cardinality s l ≤ counter_offset_cardinality p.2)) ∧
    (∀ (s : SsssState L I) (l : L),
        (∀ c, alist_lookup l s.counters = some c →
          ssss_cardinality s l = cached_cardinality c) ∧
        (alist_lookup l s.counters = none → s.counters = [] → ssss_cardinality s l = 0) ∧
        (alist_lookup l s.counters = none → s.counters ≠ [] →
          (∃ p ∈ s.counters, ssss_cardinality s l = cached_cardinality p.2) ∧
            ∀ p ∈ s.counters, ssss_cardinality s l ≤ cached_cardinality p.2)) := by
  constructor
  · intro s l
    refine ⟨fun c h => by simp [sss_cardinality, h],
      fun h he => by simp [sss_cardinality, he, alist_lookup], fun h hne => ?_⟩
    rcases hmin : (s.counters.map fun p => counter_offset_cardinality p.2).min? with _ | m
    · rw [List.min?_eq_none_iff] at hmin
      exact absurd (List.map_eq_nil_iff.mp hmin) hne
    · obtain ⟨hmem, hle⟩ := List.min?_eq_some_iff'.mp hmin
      obtain ⟨p, hp, hpv⟩ := List.mem_map.mp hmem
      have hval : sss_cardinality s l = m := by simp [sss_cardinality, h, hmin]
      refine ⟨⟨p, hp, by rw [hval, hpv]⟩, fun q hq => ?_⟩
      rw [hval]
      exact hle _ (List.mem_map.mpr ⟨q, hq, rfl⟩)
  · intro s l
    refine ⟨fun c h => by simp [ssss_cardinality, h],
      fun h he => by simp [ssss_cardinality, he, alist_lookup], fun h hne => ?_⟩
    rcases hmin : (s.counters.map fun p => cached_cardinality p.2).min? with _ | m
    · rw [List.min?_eq_none_iff] at hmin
      exact absurd (List.map_eq_nil_iff.mp hmin) hne
    · obtain ⟨hmem, hle⟩ := List.min?_eq_some_iff'.mp hmin
      obtain ⟨p, hp, hpv⟩ := List.mem_map.mp hmem
      have hval : ssss_cardinality s l = m := by simp [ssss_cardinality, h, hmin]
      refine ⟨⟨p, hp, by rw [hval, hpv]⟩, fun q hq => ?_⟩
      rw [hval]
      exact hle _ (List.mem_map.mpr ⟨q, hq, rfl⟩)

/-- Witness for C3: a tracked label, an untracked label over a non-empty
map, and the empty map, for both sketches. -/
theorem cardinality_tracked_else_min_witness :
    sss_cardinality
        (⟨⟨1, .recycle, ⟨16, 0, [], fun _ => 0, fun _ => 0⟩⟩,
          [(0, ⟨⟨⟨⟨16, 0, [], fun _ => 0, fun _ => 0⟩, [], 16, 16⟩, 5⟩, 2⟩)]⟩ : SssState ℕ ℕ) 0 =
      7 ∧
    sss_cardinality
        (⟨⟨1, .recycle, ⟨16, 0, [], fun _ => 0, fun _ => 0⟩⟩,
          [(0, ⟨⟨⟨⟨16, 0, [], fun _ => 0, fun _ => 0⟩, [], 16, 16⟩, 5⟩, 2⟩)]⟩ : SssState ℕ ℕ) 3 ≤
      7 ∧
    sss_cardinality (⟨⟨1, .recycle, ⟨16, 0, [], fun _ => 0, fun _ => 0⟩⟩, []⟩ : SssState ℕ ℕ) 3 =
      0 ∧
    ssss_cardinality
        (⟨⟨1, [], fun _ => 0, ⟨16, 0, [], fun _ => 0, fun _ => 0⟩⟩,
          [(0, ⟨⟨⟨16, 0, [], fun _ => 0, fun _ => 0⟩, [], 16, 16⟩, 5⟩)], 0⟩ : SsssState ℕ ℕ) 0 =
      5 ∧
    ssss_cardinality
        (⟨⟨1, [], fun _ => 0, ⟨16, 0, [], fun _ => 0, fun _ => 0⟩⟩, [], 0⟩ : SsssState ℕ ℕ) 3 =
      0 := by
  have h := cardinality_tracked_else_min (L := ℕ) (I := ℕ)
  refine ⟨?_, ?_, ?_, ?_, ?_⟩
  · have h2 := (h.1 (⟨⟨1, .recycle, ⟨16, 0, [], fun _ => 0, fun _ => 0⟩⟩,
      [(0, ⟨⟨⟨⟨16, 0, [], fun _ => 0, fun _ => 0⟩, [], 16, 16⟩, 5⟩, 2⟩)]⟩ : SssState ℕ ℕ) 0).1
      ⟨⟨⟨⟨16, 0, [], fun _ => 0, fun _ => 0⟩, [], 16, 16⟩, 5⟩, 2⟩ (by simp [alist_lookup])
    rw [h2]
    rfl
  · have h2 := (h.1 (⟨⟨1, .recycle, ⟨16, 0, [], fun _ => 0, fun _ => 0⟩⟩,
      [(0, ⟨⟨⟨⟨16, 0, [], fun _ => 0, fun _ => 0⟩, [], 16, 16⟩, 5⟩, 2⟩)]⟩ : SssState ℕ ℕ) 3).2.2
      (by simp [alist_lookup]) (by simp)
    have h3 := h2.2 (0, ⟨⟨⟨⟨16, 0, [], fun _ => 0, fun _ => 0⟩, [], 16, 16⟩, 5⟩, 2⟩) (by simp)
    exact le_trans h3 (le_refl 7)
  · exact (h.1 (⟨⟨1, .recycle, ⟨16, 0, [], fun _ => 0, fun _ => 0⟩⟩, []⟩ : SssState ℕ ℕ) 3).2.1
      rfl rfl
  · have h2 := (h.2 (⟨⟨1, [], fun _ => 0, ⟨16, 0, [], fun _ => 0, fun _ => 0⟩⟩,
      [(0, ⟨⟨⟨16, 0, [], fun _ => 0, fun _ => 0⟩, [], 16, 16⟩, 5⟩)], 0⟩ : SsssState ℕ ℕ) 0).1
      ⟨⟨⟨16, 0, [], fun _ => 0, fun _ => 0⟩, [], 16, 16⟩, 5⟩ (by simp [alist_lookup])
    rw [h2]
    rfl
  · exact (h.2 (⟨⟨1, [], fun _ => 0, ⟨16, 0, [], fun _ => 0, fun _ => 0⟩⟩, [], 0⟩ :
      SsssState ℕ ℕ) 3).2.1 rfl rfl

theorem la_insert_eq {L I : Type} (st : LaState L I) (l : L) (x : I) :
    la_insert st l x =
      if (st.labels.getD (pw_get_index st.sketch.config l x) (none, 0)).2 <
          pw_get_z st.sketch.config l x then
        { sketch := pw_insert st.sketch l x
          labels :=
            st.labels.set (pw_get_index st.sketch.config l x)
              (some l, pw_get_z st.sketch.config l x) }
      else { sketch := pw_insert st.sketch l x, labels := st.labels } := rfl

/-- C6 counterexample: with depth = width = 1 every pair lands in cell 0;
the stored cell is `(some 0, 3)` and the inserted pair for label `1`
computes the same level `3` (a tie), yet the owner remains label `0` —
the code compares with strict `>`, so ties keep the old label rather than
going to the new one. -/
theorem la_insert_tie_counterexample :
    pw_get_z (⟨1, 0, 1, [], fun _ _ => 0, fun _ _ => 4, fun _ _ => 0,
        .maximumLikelihood⟩ : PwConfig ℕ ℕ) 1 0 = 3 ∧
    pw_get_index (⟨1, 0, 1, [], fun _ _ => 0, fun _ _ => 4, fun _ _ => 0,
        .maximumLikelihood⟩ : PwConfig ℕ ℕ) 1 0 = 0 ∧
    (la_insert (⟨⟨⟨1, 0, 1, [], fun _ _ => 0, fun _ _ => 4, fun _ _ => 0,
        .maximumLikelihood⟩, [3]⟩, [(some 0, 3)]⟩ : LaState ℕ ℕ) 1 0).labels =
      [(some 0, 3)] ∧
    some (0 : ℕ) ≠ some 1 := by
  refine ⟨by decide, by decide, ?_, by decide⟩
  rw [la_insert_eq]
  norm_num
  decide

/-- C6 amended: on `LabelArrayCountHLL::insert` the cell at the computed
index is replaced by `(new label, z)` exactly when `z` strictly exceeds
the stored level; when `z` is less than or equal to the stored level —
ties included — the label array is left unchanged (comparison `>`, ties
going to the stored label). -/
theorem la_insert_strictly_higher_level_wins {L I : Type} (st : LaState L I) (l : L) (x : I) :
    ((st.labels.getD (pw_get_index st.sketch.config l x) (none, 0)).2 <
        pw_get_z st.sketch.config l x →
      (la_insert st l x).labels =
        st.labels.set (pw_get_index st.sketch.config l x)
          (some l, pw_get_z st.sketch.config l x)) ∧
    (pw_get_z st.sketch.config l x ≤
        (st.labels.getD (pw_get_index st.sketch.config l x) (none, 0)).2 →
      (la_insert st l x).labels = st.labels) := by
  constructor
  · intro h
    rw [la_insert_eq, if_pos h]
  · intro h
    rw [la_insert_eq, if_neg (by omega)]

/-- Witness for the amended C6: a strict improvement replaces the cell,
and an equal level leaves it unchanged. -/
theorem la_insert_strictly_higher_level_wins_witness :
    (la_insert (⟨⟨⟨1, 0, 1, [], fun _ _ => 0, fun _ _ => 4, fun _ _ => 0,
        .maximumLikelihood⟩, [2]⟩, [(some 0, 2)]⟩ : LaState ℕ ℕ) 1 0).labels =
      [(some 0, 2)].set 0 (some 1, 3) ∧
    (la_insert (⟨⟨⟨1, 0, 1, [], fun _ _ => 0, fun _ _ => 4, fun _ _ => 0,
        .maximumLikelihood⟩, [3]⟩, [(some 0, 3)]⟩ : LaState ℕ ℕ) 1 0).labels =
      [(some 0, 3)] := by
  constructor
  · exact (la_insert_strictly_higher_level_wins
      (⟨⟨⟨1, 0, 1, [], fun _ _ => 0, fun _ _ => 4, fun _ _ => 0, .maximumLikelihood⟩, [2]⟩,
        [(some 0, 2)]⟩ : LaState ℕ ℕ) 1 0).1 (by decide)
  · exact (la_insert_strictly_higher_level_wins
      (⟨⟨⟨1, 0, 1, [], fun _ _ => 0, fun _ _ => 4, fun _ _ => 0, .maximumLikelihood⟩, [3]⟩,
        [(some 0, 3)]⟩ : LaState ℕ ℕ) 1 0).2 (by decide)

theorem log2fuel_pow2 (k : ℕ) : ∀ f : ℕ, k < f → log2fuel f (2 ^ k) = k := by
  induction k with
  | zero =>
    intro f hf
    cases f with
    | zero => omega
    | succ f => simp [log2fuel]
  | succ k ih =>
    intro f hf
    cases f with
    | zero => omega
    | succ f =>
      have h2 : ¬ (2 ^ (k + 1) ≤ 1) := by
        have := Nat.one_lt_two_pow (n := k + 1) (by omega)
        omega
      simp only [log2fuel, if_neg h2]
      rw [pow_succ, Nat.mul_div_cancel _ (by norm_num), ih f (by omega)]

theorem rat_log2_pow2 (k : ℕ) (h : k < 128) : rat_log2 ((2 : ℚ) ^ k) = k := by
  unfold rat_log2
  have h1 : ((2 : ℚ) ^ k) = (((2 ^ k : ℕ) : ℤ) : ℚ) := by push_cast; ring
  rw [h1, Int.floor_intCast, Int.toNat_natCast]
  exact log2fuel_pow2 k 128 h

theorem rnd53_pow2 (k : ℕ) (h : k < 128) : rnd53 ((2 : ℚ) ^ k) = 2 ^ k := by
  unfold rnd53
  have hk1 : ¬ ((2 : ℚ) ^ k < 1) := by
    have : (1 : ℚ) ≤ 2 ^ k := one_le_pow₀ (by norm_num)
    linarith
  rw [if_neg hk1]
  simp only [rat_log2_pow2 k h]
  have hne : ((2 : ℚ) ^ k) ≠ 0 := pow_ne_zero _ (by norm_num)
  have hx : (2 : ℚ) ^ k * 2 ^ 52 / 2 ^ k = 2 ^ 52 := by
    rw [mul_comm, mul_div_assoc, div_self hne, mul_one]
  rw [hx]
  have hfl : ⌊(2 : ℚ) ^ 52⌋ = 2 ^ 52 := by
    have : ((2 : ℚ) ^ 52) = (((2 ^ 52 : ℤ)) : ℚ) := by push_cast; ring
    rw [this, Int.floor_intCast]
  rw [hfl]
  have hz : (2 : ℚ) ^ 52 - ((2 ^ 52 : ℤ) : ℚ) = 0 := by push_cast; ring
  rw [hz, if_pos (by norm_num)]
  push_cast
  norm_num

theorem u64_max_as_f64_eq : u64_max_as_f64 = 2 ^ 64 := by
  unfold u64_max_as_f64 rnd53
  have h0 : ¬ (((2 ^ 64 - 1 : ℕ) : ℚ) < 1) := by norm_num
  rw [if_neg h0]
  have hlog : rat_log2 ((2 ^ 64 - 1 : ℕ) : ℚ) = 63 := by
    unfold rat_log2
    rw [Int.floor_natCast, Int.toNat_natCast]
    decide
  simp only [hlog]
  have hx : ((2 ^ 64 - 1 : ℕ) : ℚ) * 2 ^ 52 / 2 ^ 63 = (2 ^ 64 - 1) / 2 ^ 11 := by
    norm_num
  rw [hx]
  have hfl : ⌊((2 : ℚ) ^ 64 - 1) / 2 ^ 11⌋ = 2 ^ 53 - 1 := by norm_num
  rw [hfl]
  have hfrac : ((2 : ℚ) ^ 64 - 1) / 2 ^ 11 - ((2 ^ 53 - 1 : ℤ) : ℚ) = 2047 / 2048 := by
    push_cast
    ring_nf
  rw [hfrac]
  rw [if_neg (by norm_num), if_pos (by norm_num)]
  push_cast
  ring_nf

theorem ssss_cardinality_estimate_pow2 {I : Type} (c : SsssConfig I) (x : I) (k : ℕ)
    (h1 : 1 ≤ k) (h2 : k ≤ 63) (hh : c.hash_builder x = 2 ^ k) :
    ssss_cardinality_estimate c x = 2 ^ (64 - k) := by
  unfold ssss_cardinality_estimate
  have hmod : (2 : ℕ) ^ k % 2 ^ 64 = 2 ^ k :=
    Nat.mod_eq_of_lt (Nat.pow_lt_pow_right (by norm_num) (by omega))
  have hne : (2 : ℕ) ^ k ≠ 0 := by positivity
  simp only [hh, hmod, if_neg hne]
  have hcast : (((2 : ℕ) ^ k : ℕ) : ℚ) = (2 : ℚ) ^ k := by push_cast; ring
  rw [hcast, rnd53_pow2 k (by omega)]
  unfold f64_div
  rw [u64_max_as_f64_eq]
  have hq : (2 : ℚ) ^ 64 / 2 ^ k = 2 ^ (64 - k) := by
    rw [div_eq_iff (pow_ne_zero _ (by norm_num : (2 : ℚ) ≠ 0)), ← pow_add,
      Nat.sub_add_cancel (by omega : k ≤ 64)]
  rw [hq, rnd53_pow2 (64 - k) (by omega)]
  unfold f64_to_u64
  rw [if_neg (not_lt.mpr (by positivity : (0 : ℚ) ≤ 2 ^ (64 - k)))]
  have hfl : ⌊(2 : ℚ) ^ (64 - k)⌋ = 2 ^ (64 - k) := by
    have hc : ((2 : ℚ) ^ (64 - k)) = (((2 ^ (64 - k) : ℤ)) : ℚ) := by push_cast; ring
    rw [hc, Int.floor_intCast]
  rw [hfl]
  have hc2 : ((2 : ℤ) ^ (64 - k)).toNat = 2 ^ (64 - k) := by
    have : ((2 : ℤ) ^ (64 - k)) = ((2 ^ (64 - k) : ℕ) : ℤ) := by push_cast; ring
    rw [this, Int.toNat_natCast]
  rw [hc2]
  refine Nat.min_eq_left ?_
  have hle : (2 : ℕ) ^ (64 - k) ≤ 2 ^ 63 := Nat.pow_le_pow_right (by norm_num) (by omega)
  have hlt : (2 : ℕ) ^ 63 < 2 ^ 64 - 1 := by norm_num
  omega

/-- C9 counterexample: for an item whose 64-bit hash is `2`, the code
computes `(u64::MAX as f64 / 2.0) as u64 = 2^63` (since `u64::MAX as f64`
rounds up to `2^64`), while the exact integer floor
`⌊(2^64 − 1) / 2⌋ = 2^63 − 1`; the cheap proxy is therefore not the exact
floor of `UINT64_MAX / hash(item)`. -/
theorem cheap_estimate_not_exact_floor :
    ssss_cardinality_estimate
        (⟨1, [], fun _ : ℕ => 2, ⟨16, 0, [], fun _ => 0, fun _ => 0⟩⟩ : SsssConfig ℕ) 0 ≠
      (2 ^ 64 - 1) / 2 := by
  have h := ssss_cardinality_estimate_pow2
    (⟨1, [], fun _ : ℕ => 2, ⟨16, 0, [], fun _ => 0, fun _ => 0⟩⟩ : SsssConfig ℕ) 0 1
    (by norm_num) (by norm_num) (by norm_num)
  rw [h]
  norm_num

/-- C9 amended: the cheap per-item proxy is the saturating `u64` cast of
the double-precision quotient of `u64::MAX as f64` (which rounds up to
`2^64`) by `hash as f64`; in particular, whenever the hash is a power of
two `2^k` with `1 ≤ k ≤ 63` the proxy equals
`floor(UINT64_MAX / hash) + 1`, one more than the exact integer floor the
claim states. -/
theorem cheap_estimate_off_by_one_on_pow2 {I : Type} (c : SsssConfig I) (x : I) (k : ℕ)
    (h1 : 1 ≤ k) (h2 : k ≤ 63) (hh : c.hash_builder x = 2 ^ k) :
    ssss_cardinality_estimate c x = (2 ^ 64 - 1) / 2 ^ k + 1 := by
  rw [ssss_cardinality_estimate_pow2 c x k h1 h2 hh]
  have hsplit : (2 : ℕ) ^ 64 = 2 ^ k * 2 ^ (64 - k) := by
    rw [← pow_add, Nat.add_sub_cancel' (by omega)]
  have hq : (2 : ℕ) ^ (64 - k) ≥ 1 := Nat.one_le_two_pow
  have hk : (2 : ℕ) ^ k ≥ 2 := by
    calc (2 : ℕ) ^ k ≥ 2 ^ 1 := Nat.pow_le_pow_right (by norm_num) h1
    _ = 2 := by norm_num
  have hdiv : (2 ^ k * 2 ^ (64 - k) - 1) / 2 ^ k = 2 ^ (64 - k) - 1 := by
    have hAt : 2 ^ k ≤ 2 ^ k * 2 ^ (64 - k) := Nat.le_mul_of_pos_right _ (by positivity)
    have hrw : 2 ^ k * 2 ^ (64 - k) - 1 = (2 ^ k - 1) + 2 ^ k * (2 ^ (64 - k) - 1) := by
      rw [Nat.mul_sub]
      omega
    rw [hrw, Nat.add_mul_div_left _ _ (by omega : 0 < 2 ^ k), Nat.div_eq_of_lt (by omega)]
    omega
  rw [hsplit, hdiv]
  omega

/-- Witness for the amended C9 at hash `2^5 = 32`. -/
theorem cheap_estimate_off_by_one_on_pow2_witness :
    ssss_cardinality_estimate
        (⟨1, [], fun _ : ℕ => 32, ⟨16, 0, [], fun _ => 0, fun _ => 0⟩⟩ : SsssConfig ℕ) 0 =
      (2 ^ 64 - 1) / 2 ^ 5 + 1 :=
  cheap_estimate_off_by_one_on_pow2
    (⟨1, [], fun _ : ℕ => 32, ⟨16, 0, [], fun _ => 0, fun _ => 0⟩⟩ : SsssConfig ℕ) 0 5
    (by norm_num) (by norm_num) (by norm_num)

/-- C7: for any HLL state with a valid configuration (a power-of-two
register count `m = 2^k ≥ 16`, positive `z_inv`), `cardinality` computes
the `u64` estimate `E = α·m²/z_inv`; it returns
`linear_counting(m, num_zero_registers)` — the spec-modelled
`round(m · ln(m / V))` — when `E ≤ (5/2)·m` (the code's
`E ≤ 5·(m >> 1)`, identical for even `m`) and some register is zero, and
`E` otherwise. -/
theorem hll_cardinality_formula {I : Type} (s : HllState I) (k : ℕ) (hk : 4 ≤ k)
    (hm : s.config.num_registers = 2 ^ k) (_hz : 0 < s.z_inv) :
    hll_cardinality s =
      (if 2 * f64_to_u64 (((s.config.num_registers * s.config.num_registers : ℕ) : ℚ) *
            s.config.alpha / s.z_inv) ≤ 5 * s.config.num_registers ∧
          0 < s.num_zero_registers then
        linear_counting s.config.num_registers s.num_zero_registers
      else
        f64_to_u64 (((s.config.num_registers * s.config.num_registers : ℕ) : ℚ) *
          s.config.alpha / s.z_inv)) ∧
      linear_counting s.config.num_registers s.num_zero_registers =
        (round ((s.config.num_registers : ℝ) *
          Real.log ((s.config.num_registers : ℝ) / (s.num_zero_registers : ℝ)))).toNat := by
  refine ⟨?_, rfl⟩
  simp only [hll_cardinality]
  have heven : s.config.num_registers % 2 = 0 := by
    rw [hm]
    have : (2 : ℕ) ^ k = 2 * 2 ^ (k - 1) := by
      rw [← pow_succ']
      congr 1
      omega
    omega
  have hshift : s.config.num_registers >>> 1 = s.config.num_registers / 2 := by
    rw [Nat.shiftRight_eq_div_pow]
  rw [hshift]
  set e := f64_to_u64 (((s.config.num_registers * s.config.num_registers : ℕ) : ℚ) *
    s.config.alpha / s.z_inv) with he
  have hcond : e ≤ 5 * (s.config.num_registers / 2) ↔ 2 * e ≤ 5 * s.config.num_registers := by
    omega
  by_cases h1 : e ≤ 5 * (s.config.num_registers / 2)
  · rw [if_pos h1]
    by_cases h2 : 0 < s.num_zero_registers
    · rw [if_pos h2, if_pos ⟨hcond.mp h1, h2⟩]
    · rw [if_neg h2, if_neg (by tauto)]
  · rw [if_neg h1, if_neg (by rw [← hcond] at *; tauto)]

/-- Witness for C7 at a concrete state with `m = 16`. -/
theorem hll_cardinality_formula_witness :
    hll_cardinality (⟨⟨16, 673 / 1000, [], fun _ : ℕ => 0, fun _ => 0⟩,
        List.replicate 16 1, 0, 8⟩ : HllState ℕ) =
      (if 2 * f64_to_u64 (((16 * 16 : ℕ) : ℚ) * (673 / 1000) / 8) ≤ 5 * 16 ∧
          (0 : ℕ) < 0 then
        linear_counting 16 0
      else f64_to_u64 (((16 * 16 : ℕ) : ℚ) * (673 / 1000) / 8)) ∧
      linear_counting 16 0 =
        (round (((16 : ℕ) : ℝ) * Real.log (((16 : ℕ) : ℝ) / ((0 : ℕ) : ℝ)))).toNat := by
  have h := hll_cardinality_formula (⟨⟨16, 673 / 1000, [], fun _ : ℕ => 0, fun _ => 0⟩,
      List.replicate 16 1, 0, 8⟩ : HllState ℕ) 4 (by norm_num) (by norm_num) (by norm_num)
  exact h

/-- C5 amended: a single `SamplingSpaceSavingSets::insert` either leaves
`threshold` unchanged or sets it to the minimum cached cardinality over
the counters at the time of the insert.  (It is therefore non-decreasing
only while no tracked counter's cached cardinality drops below the
current threshold; the underlying HLL estimate is not monotone, so the
minimum — and with it the threshold — can decrease within a pure
insertion stream.) -/
theorem ssss_insert_threshold_semantics {L I : Type} [DecidableEq L] (s : SsssState L I)
    (l : L) (x : I) (hnd : (s.counters.map Prod.fst).Nodup) :
    (ssss_insert s l x).threshold = s.threshold ∨
      ∃ p ∈ s.counters, (ssss_insert s l x).threshold = cached_cardinality p.2 ∧
        ∀ q ∈ s.counters, cached_cardinality p.2 ≤ cached_cardinality q.2 := by
  by_cases h1 : (alist_lookup l s.counters).isSome
  · left
    simp [ssss_insert, h1]
  · by_cases h2 : s.counters.length < s.config.max_num_counters
    · left
      simp [ssss_insert, h1, h2]
    · rcases min_by_key_spec cached_cardinality s.counters with ⟨hnil, hmb⟩ | ⟨k, v, hmb, hmem, hle⟩
      · left
        by_cases h3 : s.threshold < ssss_cardinality_estimate s.config x
        · simp [ssss_insert, h1, h2, h3, hmb]
        · simp [ssss_insert, h1, h2, h3]
      · by_cases h3 : s.threshold < ssss_cardinality_estimate s.config x
        · by_cases h4 : cached_cardinality v < ssss_cardinality_estimate s.config x
          · right
            refine ⟨(k, v), hmem, ?_, hle⟩
            have hlook : alist_lookup k s.counters = some v := alist_lookup_of_mem_nodup hnd hmem
            simp [ssss_insert, h1, h2, h3, hmb, h4, hlook]
          · right
            refine ⟨(k, v), hmem, ?_, hle⟩
            simp [ssss_insert, h1, h2, h3, hmb, h4]
        · left
          simp [ssss_insert, h1, h2, h3]

/-- Witness for the amended C5: inserting a tracked label leaves the
threshold unchanged (left disjunct). -/
theorem ssss_insert_threshold_semantics_witness :
    (ssss_insert (⟨⟨1, [], fun _ => 0, ⟨16, 0, [], fun _ => 0, fun _ => 0⟩⟩,
          [(0, ⟨⟨⟨16, 0, [], fun _ => 0, fun _ => 0⟩, [], 16, 16⟩, 5⟩)], 3⟩ : SsssState ℕ ℕ) 0
        9).threshold =
      (⟨⟨1, [], fun _ => 0, ⟨16, 0, [], fun _ => 0, fun _ => 0⟩⟩,
          [(0, ⟨⟨⟨16, 0, [], fun _ => 0, fun _ => 0⟩, [], 16, 16⟩, 5⟩)], 3⟩ : SsssState ℕ ℕ).threshold ∨
      ∃ p ∈ (⟨⟨1, [], fun _ => 0, ⟨16, 0, [], fun _ => 0, fun _ => 0⟩⟩,
          [(0, ⟨⟨⟨16, 0, [], fun _ => 0, fun _ => 0⟩, [], 16, 16⟩, 5⟩)], 3⟩ : SsssState ℕ ℕ).counters,
        (ssss_insert (⟨⟨1, [], fun _ => 0, ⟨16, 0, [], fun _ => 0, fun _ => 0⟩⟩,
            [(0, ⟨⟨⟨16, 0, [], fun _ => 0, fun _ => 0⟩, [], 16, 16⟩, 5⟩)], 3⟩ : SsssState ℕ ℕ) 0
          9).threshold = cached_cardinality p.2 ∧
        ∀ q ∈ (⟨⟨1, [], fun _ => 0, ⟨16, 0, [], fun _ => 0, fun _ => 0⟩⟩,
            [(0, ⟨⟨⟨16, 0, [], fun _ => 0, fun _ => 0⟩, [], 16, 16⟩, 5⟩)], 3⟩ : SsssState ℕ ℕ).counters,
          cached_cardinality p.2 ≤ cached_cardinality q.2 :=
  ssss_insert_threshold_semantics
    (⟨⟨1, [], fun _ => 0, ⟨16, 0, [], fun _ => 0, fun _ => 0⟩⟩,
      [(0, ⟨⟨⟨16, 0, [], fun _ => 0, fun _ => 0⟩, [], 16, 16⟩, 5⟩)], 3⟩ : SsssState ℕ ℕ) 0 9
    (by simp)

/-- C5 counterexample: a pure insertion stream on which the threshold
strictly decreases.  One HLL-backed counter (label 0) holds fifteen
registers at level 1 and one zero register, so its cached cardinality is
the linear-counting value 44.  Insert 1 (label 1, hash `2^60`, cheap
estimate 16): the full map sets `threshold` to the minimum cached
cardinality, 44, and drops the item.  Insert 2 (tracked label 0) fills
the zero register; the HLL estimate leaves the linear-counting regime and
the cached cardinality drops from 44 to 21.  Insert 3 (label 1, hash
`2^58`, cheap estimate 64 > 44) re-reads the minimum and sets `threshold`
to 21 < 44: the threshold sequence 0, 44, 44, 21 is not non-decreasing. -/
theorem ssss_threshold_decreases_counterexample :
    (ssss_insert (ssss_insert (⟨⟨1, [],
        (fun x => if x = 1 then 1152921504606846976 else
          if x = 3 then 288230376151711744 else 0),
        ⟨16, 673 / 1000, [], fun _ => 0, fun _ => 1⟩⟩,
      [(0, ⟨⟨⟨16, 673 / 1000, [], fun _ => 0, fun _ => 1⟩,
        [0, 1, 1, 1, 1, 1, 1, 1, 1, 1, 1, 1, 1, 1, 1, 1], 1, 17 / 2⟩, 44⟩)],
      0⟩ : SsssState ℕ ℕ) 1 1) 0 2).threshold = 44 ∧
    (ssss_insert (ssss_insert (ssss_insert (⟨⟨1, [],
        (fun x => if x = 1 then 1152921504606846976 else
          if x = 3 then 288230376151711744 else 0),
        ⟨16, 673 / 1000, [], fun _ => 0, fun _ => 1⟩⟩,
      [(0, ⟨⟨⟨16, 673 / 1000, [], fun _ => 0, fun _ => 1⟩,
        [0, 1, 1, 1, 1, 1, 1, 1, 1, 1, 1, 1, 1, 1, 1, 1], 1, 17 / 2⟩, 44⟩)],
      0⟩ : SsssState ℕ ℕ) 1 1) 0 2) 1 3).threshold = 21 := by
  have hstep1 : ssss_insert (⟨⟨1, [],
      (fun x => if x = 1 then 1152921504606846976 else
        if x = 3 then 288230376151711744 else 0),
      ⟨16, 673 / 1000, [], fun _ => 0, fun _ => 1⟩⟩,
      [(0, ⟨⟨⟨16, 673 / 1000, [], fun _ => 0, fun _ => 1⟩,
        [0, 1, 1, 1, 1, 1, 1, 1, 1, 1, 1, 1, 1, 1, 1, 1], 1, 17 / 2⟩, 44⟩)],
      0⟩ : SsssState ℕ ℕ) 1 1 =
      ⟨⟨1, [],
        (fun x => if x = 1 then 1152921504606846976 else
          if x = 3 then 288230376151711744 else 0),
        ⟨16, 673 / 1000, [], fun _ => 0, fun _ => 1⟩⟩,
      [(0, ⟨⟨⟨16, 673 / 1000, [], fun _ => 0, fun _ => 1⟩,
        [0, 1, 1, 1, 1, 1, 1, 1, 1, 1, 1, 1, 1, 1, 1, 1], 1, 17 / 2⟩, 44⟩)],
      44⟩ := by
    have hest : ssss_cardinality_estimate
        (⟨1, [],
          (fun x => if x = 1 then 1152921504606846976 else
            if x = 3 then 288230376151711744 else 0),
          ⟨16, 673 / 1000, [], fun _ => 0, fun _ => 1⟩⟩ : SsssConfig ℕ) 1 = 16 := by
      have h := ssss_cardinality_estimate_pow2
        (⟨1, [],
          (fun x => if x = 1 then 1152921504606846976 else
            if x = 3 then 288230376151711744 else 0),
          ⟨16, 673 / 1000, [], fun _ => 0, fun _ => 1⟩⟩ : SsssConfig ℕ) 1 60
        (by norm_num) (by norm_num) (by norm_num)
      simpa using h
    simp [ssss_insert, alist_lookup, min_by_key, hest, cached_cardinality]
  have hstep2 : ssss_insert (⟨⟨1, [],
      (fun x => if x = 1 then 1152921504606846976 else
        if x = 3 then 288230376151711744 else 0),
      ⟨16, 673 / 1000, [], fun _ => 0, fun _ => 1⟩⟩,
      [(0, ⟨⟨⟨16, 673 / 1000, [], fun _ => 0, fun _ => 1⟩,
        [0, 1, 1, 1, 1, 1, 1, 1, 1, 1, 1, 1, 1, 1, 1, 1], 1, 17 / 2⟩, 44⟩)],
      44⟩ : SsssState ℕ ℕ) 0 2 =
      ⟨⟨1, [],
        (fun x => if x = 1 then 1152921504606846976 else
          if x = 3 then 288230376151711744 else 0),
        ⟨16, 673 / 1000, [], fun _ => 0, fun _ => 1⟩⟩,
      [(0, ⟨⟨⟨16, 673 / 1000, [], fun _ => 0, fun _ => 1⟩,
        [1, 1, 1, 1, 1, 1, 1, 1, 1, 1, 1, 1, 1, 1, 1, 1], 0, 8⟩, 21⟩)],
      44⟩ := by
    have hsk : hll_insert (⟨⟨16, 673 / 1000, [], fun _ => 0, fun _ => 1⟩,
        [0, 1, 1, 1, 1, 1, 1, 1, 1, 1, 1, 1, 1, 1, 1, 1], 1, 17 / 2⟩ : HllState ℕ) 2 =
        ⟨⟨16, 673 / 1000, [], fun _ => 0, fun _ => 1⟩,
          [1, 1, 1, 1, 1, 1, 1, 1, 1, 1, 1, 1, 1, 1, 1, 1], 0, 8⟩ := by
      have hz : u64_trailing_zeros 1 = 0 := by decide
      have hr : (0 : ℕ) % 2 ^ 64 &&& (16 - 1) = 0 := by decide
      simp only [hll_insert, hll_insert_hash_eq, hz, hr]
      norm_num [invPow2]
    have hcard : hll_cardinality (⟨⟨16, 673 / 1000, [], fun _ => 0, fun _ => 1⟩,
        [1, 1, 1, 1, 1, 1, 1, 1, 1, 1, 1, 1, 1, 1, 1, 1], 0, 8⟩ : HllState ℕ) = 21 := by
      have hs : (16 : ℕ) >>> 1 = 8 := by decide
      simp only [hll_cardinality, f64_to_u64, hs]
      norm_num
      rfl
    simp [ssss_insert, alist_lookup, alist_update, cached_insert, hsk, hcard]
  have hstep3 : (ssss_insert (⟨⟨1, [],
      (fun x => if x = 1 then 1152921504606846976 else
        if x = 3 then 288230376151711744 else 0),
      ⟨16, 673 / 1000, [], fun _ => 0, fun _ => 1⟩⟩,
      [(0, ⟨⟨⟨16, 673 / 1000, [], fun _ => 0, fun _ => 1⟩,
        [1, 1, 1, 1, 1, 1, 1, 1, 1, 1, 1, 1, 1, 1, 1, 1], 0, 8⟩, 21⟩)],
      44⟩ : SsssState ℕ ℕ) 1 3).threshold = 21 := by
    have hest : ssss_cardinality_estimate
        (⟨1, [],
          (fun x => if x = 1 then 1152921504606846976 else
            if x = 3 then 288230376151711744 else 0),
          ⟨16, 673 / 1000, [], fun _ => 0, fun _ => 1⟩⟩ : SsssConfig ℕ) 3 = 64 := by
      have h := ssss_cardinality_estimate_pow2
        (⟨1, [],
          (fun x => if x = 1 then 1152921504606846976 else
            if x = 3 then 288230376151711744 else 0),
          ⟨16, 673 / 1000, [], fun _ => 0, fun _ => 1⟩⟩ : SsssConfig ℕ) 3 58
        (by norm_num) (by norm_num) (by norm_num)
      simpa using h
    simp [ssss_insert, alist_lookup, min_by_key, hest, cached_cardinality]
  rw [hstep1, hstep2]
  exact ⟨rfl, hstep3⟩

theorem toInt32_of_lt {n : ℕ} (h : n < 2 ^ 31) : toInt32 n = n := by
  unfold toInt32
  rw [Nat.mod_eq_of_lt (lt_trans h (by norm_num))]
  rw [if_pos h]

theorem i32_neg_natCast (n : ℕ) : i32_neg (n : ℤ) = -(n : ℤ) := by
  unfold i32_neg
  rw [if_neg (by omega)]

/-- C8 counterexample: `top` sorts by the key `-(cardinality as i32)`, a
32-bit truncating cast.  With two owner labels of cardinalities
46248207843 (whose low 32 bits exceed `2^31`, making the key positive)
and 43 (key `-43`), `top(2)` lists the label with cardinality 43 before
the label with cardinality 46248207843: label 0 has the strictly larger
cardinality, label 1 appears in `top(2)`, yet label 0 comes after it. -/
theorem spread_top_misorders_counterexample :
    spread_top (⟨⟨1, 2, [], fun _ _ => 0, fun _ l => if l = 0 then 0 else 1,
        ⟨16, 673 / 1000, [], fun _ => 0, fun _ => 0⟩⟩,
      [⟨some 0, ⟨⟨16, 673 / 1000, [], fun _ => 0, fun _ => 0⟩,
          [32, 32, 32, 32, 32, 32, 32, 32, 32, 32, 32, 32, 32, 32, 32, 32], 0,
          (268435456 : ℚ)⁻¹⟩, 0⟩,
        ⟨some 1, ⟨⟨16, 673 / 1000, [], fun _ => 0, fun _ => 0⟩,
          [2, 2, 2, 2, 2, 2, 2, 2, 2, 2, 2, 2, 2, 2, 2, 2], 0, 4⟩, 0⟩]⟩ : SpreadState ℕ ℕ) 2 =
      [(1, 43), (0, 46248207843)] ∧ (43 : ℕ) < 46248207843 := by
  refine ⟨?_, by norm_num⟩
  have hs : (16 : ℕ) >>> 1 = 8 := by decide
  have hc0 : hll_cardinality (⟨⟨16, 673 / 1000, [], fun _ => 0, fun _ => 0⟩,
      [32, 32, 32, 32, 32, 32, 32, 32, 32, 32, 32, 32, 32, 32, 32, 32], 0,
      (268435456 : ℚ)⁻¹⟩ : HllState ℕ) = 46248207843 := by
    simp only [hll_cardinality, f64_to_u64, hs]
    norm_num
    rfl
  have hc1 : hll_cardinality (⟨⟨16, 673 / 1000, [], fun _ => 0, fun _ => 0⟩,
      [2, 2, 2, 2, 2, 2, 2, 2, 2, 2, 2, 2, 2, 2, 2, 2], 0, 4⟩ : HllState ℕ) = 43 := by
    simp only [hll_cardinality, f64_to_u64, hs]
    norm_num
    rfl
  simp [spread_top, itertools_unique, unique_aux, spread_cardinality, spread_row_hash,
    spread_bucket_index, bucket_count, hc0, hc1, List.insertionSort, List.orderedInsert,
    spread_top_le, toInt32, i32_neg, List.range_succ]

/-- C8 amended: `top(k)` is the first `k` of the unique owner labels,
each paired with its `cardinality` score, ordered by the stable ascending
sort on the key `-(cardinality as i32)`; whenever every label's
cardinality is below `2^31` (so the 32-bit cast is lossless) this order
is by non-increasing cardinality. -/
theorem spread_top_sorted_desc_when_small {L I : Type} [DecidableEq L] (s : SpreadState L I)
    (k : ℕ) (hsmall : ∀ l : L, spread_cardinality s l < 2 ^ 31) :
    (∀ p ∈ spread_top s k, p.2 = spread_cardinality s p.1) ∧
      (spread_top s k).Pairwise (fun p q : L × ℕ => q.2 ≤ p.2) := by
  have hmem : ∀ p ∈ spread_top s k, p.2 = spread_cardinality s p.1 := by
    intro p hp
    simp only [spread_top] at hp
    have h2 := List.mem_of_mem_take hp
    rw [(List.perm_insertionSort spread_top_le _).mem_iff] at h2
    obtain ⟨l, _, rfl⟩ := List.mem_map.mp h2
    rfl
  refine ⟨hmem, ?_⟩
  have hsorted :
      List.Sorted spread_top_le
        (((itertools_unique (s.buckets.filterMap fun b => b.label)).map
            fun l => (l, spread_cardinality s l)).insertionSort spread_top_le) :=
    List.sorted_insertionSort spread_top_le _
  have htake : (spread_top s k).Pairwise spread_top_le := by
    simp only [spread_top]
    exact List.Pairwise.sublist (List.take_sublist _ _) hsorted
  refine htake.imp_of_mem ?_
  intro a b ha hb hr
  have hA : a.2 = spread_cardinality s a.1 := hmem a ha
  have hB : b.2 = spread_cardinality s b.1 := hmem b hb
  have hA2 : a.2 < 2 ^ 31 := by rw [hA]; exact hsmall a.1
  have hB2 : b.2 < 2 ^ 31 := by rw [hB]; exact hsmall b.1
  unfold spread_top_le at hr
  rw [toInt32_of_lt hA2, toInt32_of_lt hB2, i32_neg_natCast, i32_neg_natCast] at hr
  omega

/-- Witness for the amended C8 on a two-bucket state whose cardinalities
(86 and 43) are both below `2^31`. -/
theorem spread_top_sorted_desc_when_small_witness :
    (∀ p ∈ spread_top (⟨⟨1, 2, [], fun _ _ => 0, fun _ l => if l = 0 then 0 else 1,
        ⟨16, 673 / 1000, [], fun _ => 0, fun _ => 0⟩⟩,
      [⟨some 0, ⟨⟨16, 673 / 1000, [], fun _ => 0, fun _ => 0⟩,
          [3, 3, 3, 3, 3, 3, 3, 3, 3, 3, 3, 3, 3, 3, 3, 3], 0, 2⟩, 0⟩,
        ⟨some 1, ⟨⟨16, 673 / 1000, [], fun _ => 0, fun _ => 0⟩,
          [2, 2, 2, 2, 2, 2, 2, 2, 2, 2, 2, 2, 2, 2, 2, 2], 0, 4⟩, 0⟩]⟩ : SpreadState ℕ ℕ) 2,
      p.2 = spread_cardinality (⟨⟨1, 2, [], fun _ _ => 0, fun _ l => if l = 0 then 0 else 1,
        ⟨16, 673 / 1000, [], fun _ => 0, fun _ => 0⟩⟩,
      [⟨some 0, ⟨⟨16, 673 / 1000, [], fun _ => 0, fun _ => 0⟩,
          [3, 3, 3, 3, 3, 3, 3, 3, 3, 3, 3, 3, 3, 3, 3, 3], 0, 2⟩, 0⟩,
        ⟨some 1, ⟨⟨16, 673 / 1000, [], fun _ => 0, fun _ => 0⟩,
          [2, 2, 2, 2, 2, 2, 2, 2, 2, 2, 2, 2, 2, 2, 2, 2], 0, 4⟩, 0⟩]⟩ : SpreadState ℕ ℕ)
        p.1) ∧
    (spread_top (⟨⟨1, 2, [], fun _ _ => 0, fun _ l => if l = 0 then 0 else 1,
        ⟨16, 673 / 1000, [], fun _ => 0, fun _ => 0⟩⟩,
      [⟨some 0, ⟨⟨16, 673 / 1000, [], fun _ => 0, fun _ => 0⟩,
          [3, 3, 3, 3, 3, 3, 3, 3, 3, 3, 3, 3, 3, 3, 3, 3], 0, 2⟩, 0⟩,
        ⟨some 1, ⟨⟨16, 673 / 1000, [], fun _ => 0, fun _ => 0⟩,
          [2, 2, 2, 2, 2, 2, 2, 2, 2, 2, 2, 2, 2, 2, 2, 2], 0, 4⟩, 0⟩]⟩ : SpreadState ℕ ℕ)
        2).Pairwise (fun p q : ℕ × ℕ => q.2 ≤ p.2) := by
  have hs : (16 : ℕ) >>> 1 = 8 := by decide
  have hc0 : hll_cardinality (⟨⟨16, 673 / 1000, [], fun _ => 0, fun _ => 0⟩,
      [3, 3, 3, 3, 3, 3, 3, 3, 3, 3, 3, 3, 3, 3, 3, 3], 0, 2⟩ : HllState ℕ) = 86 := by
    simp only [hll_cardinality, f64_to_u64, hs]
    norm_num
    rfl
  have hc1 : hll_cardinality (⟨⟨16, 673 / 1000, [], fun _ => 0, fun _ => 0⟩,
      [2, 2, 2, 2, 2, 2, 2, 2, 2, 2, 2, 2, 2, 2, 2, 2], 0, 4⟩ : HllState ℕ) = 43 := by
    simp only [hll_cardinality, f64_to_u64, hs]
    norm_num
    rfl
  refine spread_top_sorted_desc_when_small _ 2 ?_
  intro l
  by_cases hl : l = 0
  · simp [spread_cardinality, spread_row_hash, spread_bucket_index, bucket_count, hl, hc0,
      List.range_succ]
  · simp [spread_cardinality, spread_row_hash, spread_bucket_index, bucket_count, hl, hc1,
      List.range_succ]

theorem map_fst_foldl_alist_remove_sublist {κ β : Type} [DecidableEq κ] (ls : List κ)
    (m : List (κ × β)) :
    ((ls.foldl (fun m l => alist_remove l m) m).map Prod.fst).Sublist (m.map Prod.fst) := by
  induction ls generalizing m with
  | nil => simp
  | cons a t ih =>
    simp only [List.foldl_cons]
    exact (ih (alist_remove a m)).trans (map_fst_alist_remove_sublist a m)

theorem length_foldl_alist_remove {κ β : Type} [DecidableEq κ] (ls : List κ)
    (m : List (κ × β)) (hnd : ls.Nodup) (hmem : ∀ l ∈ ls, l ∈ m.map Prod.fst) :
    (ls.foldl (fun m l => alist_remove l m) m).length + ls.length = m.length := by
  induction ls generalizing m with
  | nil => simp
  | cons a t ih =>
    simp only [List.foldl_cons]
    have ha : a ∈ m.map Prod.fst := hmem a (by simp)
    have hlen := length_alist_remove_of_mem ha
    have hmem2 : ∀ l ∈ t, l ∈ (alist_remove a m).map Prod.fst := by
      intro l hl
      have hne : l ≠ a := by
        rintro rfl
        exact (List.nodup_cons.mp hnd).1 hl
      exact (mem_map_fst_alist_remove m hne).mpr (hmem l (by simp [hl]))
    have h2 := ih (alist_remove a m) (List.nodup_cons.mp hnd).2 hmem2
    simp only [List.length_cons]
    omega

theorem sss_trim_length_le {L β : Type} [DecidableEq L] (mx : ℕ) (card : β → ℕ)
    (m : List (L × β)) (hnd : (m.map Prod.fst).Nodup) : (sss_trim mx card m).length ≤ mx := by
  have htrim : sss_trim mx card m =
      ((((m.map fun p => (p.1, card p.2)).insertionSort
        fun p q => p.2 ≤ q.2).reverse.drop mx).map Prod.fst).foldl
        (fun m l => alist_remove l m) m := rfl
  rw [htrim]
  have hperm : List.Perm
      ((m.map fun p => (p.1, card p.2)).insertionSort fun p q => p.2 ≤ q.2)
      (m.map fun p => (p.1, card p.2)) := List.perm_insertionSort _ _
  have hmapfst : ((m.map fun p => (p.1, card p.2)).map Prod.fst) = m.map Prod.fst := by
    rw [List.map_map]
    rfl
  have hpermf : List.Perm
      (((m.map fun p => (p.1, card p.2)).insertionSort fun p q => p.2 ≤ q.2).map Prod.fst)
      (m.map Prod.fst) := by
    rw [← hmapfst]
    exact hperm.map Prod.fst
  have hsub :
      ((((m.map fun p => (p.1, card p.2)).insertionSort
          fun p q => p.2 ≤ q.2).reverse.drop mx).map Prod.fst).Sublist
        ((((m.map fun p => (p.1, card p.2)).insertionSort
          fun p q => p.2 ≤ q.2).map Prod.fst).reverse) := by
    rw [← List.map_reverse]
    exact (List.drop_sublist _ _).map Prod.fst
  have hnd2 :
      ((((m.map fun p => (p.1, card p.2)).insertionSort
          fun p q => p.2 ≤ q.2).reverse.drop mx).map Prod.fst).Nodup :=
    hsub.nodup (by rw [List.nodup_reverse]; exact hpermf.nodup_iff.mpr hnd)
  have hmem2 : ∀ l ∈ (((m.map fun p => (p.1, card p.2)).insertionSort
      fun p q => p.2 ≤ q.2).reverse.drop mx).map Prod.fst, l ∈ m.map Prod.fst := by
    intro l hl
    have h2 := hsub.mem hl
    rw [List.mem_reverse] at h2
    exact hpermf.mem_iff.mp h2
  have hcount := length_foldl_alist_remove
    ((((m.map fun p => (p.1, card p.2)).insertionSort
      fun p q => p.2 ≤ q.2).reverse.drop mx).map Prod.fst) m hnd2 hmem2
  have hlensort : (((m.map fun p => (p.1, card p.2)).insertionSort
      fun p q => p.2 ≤ q.2).length) = m.length := by
    rw [hperm.length_eq, List.length_map]
  simp only [List.length_map, List.length_drop, List.length_reverse, hlensort] at hcount
  omega

theorem sss_trim_nodup {L β : Type} [DecidableEq L] (mx : ℕ) (card : β → ℕ)
    (m : List (L × β)) (hnd : (m.map Prod.fst).Nodup) :
    ((sss_trim mx card m).map Prod.fst).Nodup := by
  have htrim : sss_trim mx card m =
      ((((m.map fun p => (p.1, card p.2)).insertionSort
        fun p q => p.2 ≤ q.2).reverse.drop mx).map Prod.fst).foldl
        (fun m l => alist_remove l m) m := rfl
  rw [htrim]
  exact (map_fst_foldl_alist_remove_sublist _ m).nodup hnd

theorem nodup_foldl_or_insert {κ β : Type} [DecidableEq κ] (F : κ × β → β → β)
    (G : κ × β → β) (os : List (κ × β)) (m : List (κ × β))
    (hnd : (m.map Prod.fst).Nodup) :
    ((os.foldl
        (fun m p =>
          if (alist_lookup p.1 m).isSome then alist_update p.1 (F p) m
          else m ++ [(p.1, G p)])
        m).map Prod.fst).Nodup := by
  induction os generalizing m with
  | nil => exact hnd
  | cons p t ih =>
    simp only [List.foldl_cons]
    by_cases h : (alist_lookup p.1 m).isSome
    · rw [if_pos h]
      exact ih _ (by rw [map_fst_alist_update]; exact hnd)
    · rw [if_neg h]
      refine ih _ ?_
      have hn : p.1 ∉ m.map Prod.fst := by
        rw [← alist_lookup_eq_none_iff]
        cases hh : alist_lookup p.1 m with
        | none => rfl
        | some v => rw [hh] at h; simp at h
      rw [List.map_append]
      simp [List.nodup_append, hnd, hn]

theorem not_mem_of_lookup_not_isSome {κ β : Type} [DecidableEq κ] {k : κ}
    {m : List (κ × β)} (h : ¬ (alist_lookup k m).isSome) : k ∉ m.map Prod.fst := by
  rw [← alist_lookup_eq_none_iff]
  cases hh : alist_lookup k m with
  | none => rfl
  | some v => rw [hh] at h; simp at h

theorem sss_insert_config {L I : Type} [DecidableEq L] (s : SssState L I) (l : L) (x : I) :
    (sss_insert s l x).config = s.config := by
  unfold sss_insert
  repeat' split
  all_goals rfl

theorem sss_inv_insert {L I : Type} [DecidableEq L] (s : SssState L I) (l : L) (x : I)
    (h : sss_inv s) : sss_inv (sss_insert s l x) := by
  obtain ⟨hmax, hlen, hnd⟩ := h
  have hcfg : (sss_insert s l x).config = s.config := sss_insert_config s l x
  rw [sss_inv, hcfg]
  by_cases h1 : (alist_lookup l s.counters).isSome
  · exact ⟨hmax, by simp [sss_insert, h1, length_alist_update, hlen],
      by simp [sss_insert, h1, map_fst_alist_update, hnd]⟩
  · have hnotin : l ∉ s.counters.map Prod.fst := not_mem_of_lookup_not_isSome h1
    by_cases h2 : s.counters.length = s.config.max_num_counters
    · rcases min_by_key_spec counter_offset_cardinality s.counters with ⟨hnil, hmb⟩ |
        ⟨k, v, hmb, hmem, _⟩
      · exact ⟨hmax, by simp [sss_insert, h1, h2, hmb, hlen],
          by simp [sss_insert, h1, h2, hmb, hnd]⟩
      · have hkmem : k ∈ s.counters.map Prod.fst := List.mem_map.mpr ⟨(k, v), hmem, rfl⟩
        have hrm := length_alist_remove_of_mem (m := s.counters) hkmem
        refine ⟨hmax, ?_, ?_⟩
        · simp only [sss_insert, h1, h2, hmb]
          simp only [Bool.false_eq_true, if_false, if_true, List.length_append,
            List.length_cons, List.length_nil]
          omega
        · simp only [sss_insert, h1, h2, hmb]
          simp only [Bool.false_eq_true, if_false, if_true, List.map_append]
          have hsub := map_fst_alist_remove_sublist k s.counters
          refine List.Nodup.append (hsub.nodup hnd) (by simp) ?_
          intro a ha hb
          simp only [List.map_cons, List.map_nil, List.mem_cons, List.not_mem_nil] at hb
          rcases hb with hb | hb
          · exact hnotin (hb ▸ hsub.mem ha)
          · simp at hb
    · have hlt : s.counters.length < s.config.max_num_counters := lt_of_le_of_ne hlen h2
      refine ⟨hmax, ?_, ?_⟩
      · simp only [sss_insert, h1, h2]
        simp only [Bool.false_eq_true, if_false, List.length_append, List.length_cons,
          List.length_nil]
        omega
      · simp only [sss_insert, h1, h2]
        simp only [Bool.false_eq_true, if_false, List.map_append]
        refine List.Nodup.append hnd (by simp) ?_
        intro a ha hb
        simp only [List.map_cons, List.map_nil, List.mem_cons, List.not_mem_nil] at hb
        rcases hb with hb | hb
        · exact hnotin (hb ▸ ha)
        · simp at hb

theorem ssss_insert_config {L I : Type} [DecidableEq L] (s : SsssState L I) (l : L) (x : I) :
    (ssss_insert s l x).config = s.config := by
  unfold ssss_insert
  repeat' split
  all_goals dsimp only
  all_goals repeat' split
  all_goals rfl

theorem ssss_inv_insert {L I : Type} [DecidableEq L] (s : SsssState L I) (l : L) (x : I)
    (h : ssss_inv s) : ssss_inv (ssss_insert s l x) := by
  obtain ⟨hmax, hlen, hnd⟩ := h
  have hcfg : (ssss_insert s l x).config = s.config := ssss_insert_config s l x
  rw [ssss_inv, hcfg]
  by_cases h1 : (alist_lookup l s.counters).isSome
  · exact ⟨hmax, by simp [ssss_insert, h1, length_alist_update, hlen],
      by simp [ssss_insert, h1, map_fst_alist_update, hnd]⟩
  · have hnotin : l ∉ s.counters.map Prod.fst := not_mem_of_lookup_not_isSome h1
    by_cases h2 : s.counters.length < s.config.max_num_counters
    · refine ⟨hmax, ?_, ?_⟩
      · simp only [ssss_insert, h1, h2]
        simp only [Bool.false_eq_true, if_false, if_true, List.length_append,
          List.length_cons, List.length_nil]
        omega
      · simp only [ssss_insert, h1, h2]
        simp only [Bool.false_eq_true, if_false, if_true, List.map_append]
        refine List.Nodup.append hnd (by simp) ?_
        intro a ha hb
        simp only [List.map_cons, List.map_nil, List.mem_cons, List.not_mem_nil] at hb
        rcases hb with hb | hb
        · exact hnotin (hb ▸ ha)
        · simp at hb
    · by_cases h3 : s.threshold < ssss_cardinality_estimate s.config x
      · rcases min_by_key_spec cached_cardinality s.counters with ⟨hnil, hmb⟩ |
          ⟨k, v, hmb, hmem, _⟩
        · exact ⟨hmax, by simp [ssss_insert, h1, h2, h3, hmb, hlen],
            by simp [ssss_insert, h1, h2, h3, hmb, hnd]⟩
        · by_cases h4 : cached_cardinality v < ssss_cardinality_estimate s.config x
          · have hkmem : k ∈ s.counters.map Prod.fst := List.mem_map.mpr ⟨(k, v), hmem, rfl⟩
            have hrm := length_alist_remove_of_mem (m := s.counters) hkmem
            refine ⟨hmax, ?_, ?_⟩
            · simp only [ssss_insert, h1, h2, h3, hmb, h4]
              simp only [Bool.false_eq_true, if_false, if_true, List.length_append,
                List.length_cons, List.length_nil]
              omega
            · simp only [ssss_insert, h1, h2, h3, hmb, h4]
              simp only [Bool.false_eq_true, if_false, if_true, List.map_append]
              have hsub := map_fst_alist_remove_sublist k s.counters
              refine List.Nodup.append (hsub.nodup hnd) (by simp) ?_
              intro a ha hb
              simp only [List.map_cons, List.map_nil, List.mem_cons, List.not_mem_nil] at hb
              rcases hb with hb | hb
              · exact hnotin (hb ▸ hsub.mem ha)
              · simp at hb
          · exact ⟨hmax, by simp [ssss_insert, h1, h2, h3, hmb, h4, hlen],
              by simp [ssss_insert, h1, h2, h3, hmb, h4, hnd]⟩
      · exact ⟨hmax, by simp [ssss_insert, h1, h2, h3, hlen],
          by simp [ssss_insert, h1, h2, h3, hnd]⟩

theorem sss_inv_merge {L I : Type} [DecidableEq L] (s o : SssState L I) (h : sss_inv s) :
    sss_inv (sss_merge s o).2 := by
  obtain ⟨hmax, hlen, hnd⟩ := h
  by_cases hc : sss_config_eq s.config o.config
  · have hcomb : ((o.counters.foldl
        (fun m p =>
          if (alist_lookup p.1 m).isSome then
            alist_update p.1
              (fun c => { c with sketch := (cached_merge c.sketch p.2.sketch).2 }) m
          else
            m ++
              [(p.1,
                counter_new
                  ((cached_merge (cached_new s.config.cardinality_sketch_config)
                    p.2.sketch).2))])
        s.counters).map Prod.fst).Nodup :=
      nodup_foldl_or_insert
        (fun p c => { c with sketch := (cached_merge c.sketch p.2.sketch).2 })
        (fun p =>
          counter_new
            ((cached_merge (cached_new s.config.cardinality_sketch_config) p.2.sketch).2))
        o.counters s.counters hnd
    refine ⟨?_, ?_, ?_⟩
    · simpa [sss_merge, hc] using hmax
    · simp only [sss_merge, if_pos hc]
      exact sss_trim_length_le _ _ _ hcomb
    · simp only [sss_merge, if_pos hc]
      exact sss_trim_nodup _ _ _ hcomb
  · simp only [sss_merge, if_neg hc]
    exact ⟨hmax, hlen, hnd⟩

theorem ssss_inv_merge {L I : Type} [DecidableEq L] (s o : SsssState L I) (h : ssss_inv s) :
    ssss_inv (ssss_merge s o).2 := by
  obtain ⟨hmax, hlen, hnd⟩ := h
  by_cases hc : ssss_config_eq s.config o.config
  · have hcomb : ((o.counters.foldl
        (fun m p =>
          if (alist_lookup p.1 m).isSome then
            alist_update p.1 (fun c => (cached_merge c p.2).2) m
          else
            m ++ [(p.1, (cached_merge (cached_new s.config.cardinality_sketch_config) p.2).2)])
        s.counters).map Prod.fst).Nodup :=
      nodup_foldl_or_insert (fun p c => (cached_merge c p.2).2)
        (fun p => (cached_merge (cached_new s.config.cardinality_sketch_config) p.2).2)
        o.counters s.counters hnd
    refine ⟨?_, ?_, ?_⟩
    · simpa [ssss_merge, hc] using hmax
    · simp only [ssss_merge, if_pos hc]
      exact sss_trim_length_le _ _ _ hcomb
    · simp only [ssss_merge, if_pos hc]
      exact sss_trim_nodup _ _ _ hcomb
  · simp only [ssss_merge, if_neg hc]
    exact ⟨hmax, hlen, hnd⟩

theorem sss_inv_of_reachable {L I : Type} [DecidableEq L] (s : SssState L I)
    (h : sss_reachable s) : sss_inv s := by
  induction h with
  | new c hc => exact ⟨hc, by simp [sss_new], by simp [sss_new]⟩
  | insert s l x _ ih => exact sss_inv_insert s l x ih
  | merge s o _ ih => exact sss_inv_merge s o ih

theorem ssss_inv_of_reachable {L I : Type} [DecidableEq L] (s : SsssState L I)
    (h : ssss_reachable s) : ssss_inv s := by
  induction h with
  | new c hc => exact ⟨hc, by simp [ssss_new], by simp [ssss_new]⟩
  | insert s l x _ ih => exact ssss_inv_insert s l x ih
  | merge s o _ ih => exact ssss_inv_merge s o ih

/-- C4: every SpaceSavingSets and SamplingSpaceSavingSets state reachable
from `new(config)` by inserts and merges tracks at most
`max_num_counters` counters: a full map evicts or reuses an entry on
insert, and a successful merge trims back to the bound after combining. -/
theorem sss_ssss_never_exceed_capacity {L I : Type} [DecidableEq L] :
    (∀ s : SssState L I, sss_reachable s →
      s.counters.length ≤ s.config.max_num_counters) ∧
    (∀ s : SsssState L I, ssss_reachable s →
      s.counters.length ≤ s.config.max_num_counters) :=
  ⟨fun s h => (sss_inv_of_reachable s h).2.1, fun s h => (ssss_inv_of_reachable s h).2.1⟩

/-- Witness for C4 at concrete reachable states (one insert after `new`). -/
theorem sss_ssss_never_exceed_capacity_witness :
    (sss_insert (sss_new (⟨1, .recycle, ⟨16, 673 / 1000, [], fun _ => 0,
          fun _ => 0⟩⟩ : SssConfig ℕ)) (5 : ℕ) 7).counters.length ≤
      (sss_insert (sss_new (⟨1, .recycle, ⟨16, 673 / 1000, [], fun _ => 0,
          fun _ => 0⟩⟩ : SssConfig ℕ)) (5 : ℕ) 7).config.max_num_counters ∧
    (ssss_insert (ssss_new (⟨1, [], fun _ => 0, ⟨16, 673 / 1000, [], fun _ => 0,
          fun _ => 0⟩⟩ : SsssConfig ℕ)) (5 : ℕ) 7).counters.length ≤
      (ssss_insert (ssss_new (⟨1, [], fun _ => 0, ⟨16, 673 / 1000, [], fun _ => 0,
          fun _ => 0⟩⟩ : SsssConfig ℕ)) (5 : ℕ) 7).config.max_num_counters :=
  ⟨(sss_ssss_never_exceed_capacity (L := ℕ) (I := ℕ)).1 _
      (sss_reachable.insert _ 5 7 (sss_reachable.new _ (by norm_num))),
    (sss_ssss_never_exceed_capacity (L := ℕ) (I := ℕ)).2 _
      (ssss_reachable.insert _ 5 7 (ssss_reachable.new _ (by norm_num)))⟩
